import Mathlib

/-!
# Verification of the rustreexo utreexo accumulator core

Shallow embedding of the repository's accumulator core:

* `wasm_node_hash.rs` — the `NodeHash` type and `parent_hash`;
* `stump.rs`          — the compact verifier state (`Stump`);
* `pollard.rs`        — the caching in-memory forest (`Pollard`), modelled
  with an explicit arena of nodes standing for the `Rc<PollardNode>` heap.

Byte strings are `List Nat` (each entry a byte value), machine words are
`Nat` reduced modulo `2^32` / `2^64` where the source uses `u32` / `u64`.
The host hash primitives (SHA-256 for the test leaves, SHA-512/256 for
`parent_hash`) are implemented executably below so that concrete scenarios
from the specification can be settled by evaluation.
-/

set_option maxRecDepth 100000
set_option maxHeartbeats 16000000

namespace Rustreexo

/-! ## Host hash primitives

SHA-256 (used by the tests' `hash_from_u8` leaf hashes) and SHA-512/256
(used by `NodeHash::parent_hash`), both over byte lists. -/

def w32 (x : Nat) : Nat := x % 4294967296

def w64 (x : Nat) : Nat := x % 18446744073709551616

def rotr32 (x n : Nat) : Nat := w32 ((x >>> n) ||| (x <<< (32 - n)))

def rotr64 (x n : Nat) : Nat := w64 ((x >>> n) ||| (x <<< (64 - n)))

def shaCh (x y z : Nat) (mask : Nat) : Nat := (x &&& y) ^^^ ((x ^^^ mask) &&& z)

def shaMaj (x y z : Nat) : Nat := (x &&& y) ^^^ (x &&& z) ^^^ (y &&& z)

def bsig0x256 (x : Nat) : Nat := rotr32 x 2 ^^^ rotr32 x 13 ^^^ rotr32 x 22

def bsig1x256 (x : Nat) : Nat := rotr32 x 6 ^^^ rotr32 x 11 ^^^ rotr32 x 25

def ssig0x256 (x : Nat) : Nat := rotr32 x 7 ^^^ rotr32 x 18 ^^^ (x >>> 3)

def ssig1x256 (x : Nat) : Nat := rotr32 x 17 ^^^ rotr32 x 19 ^^^ (x >>> 10)

def bsig0x512 (x : Nat) : Nat := rotr64 x 28 ^^^ rotr64 x 34 ^^^ rotr64 x 39

def bsig1x512 (x : Nat) : Nat := rotr64 x 14 ^^^ rotr64 x 18 ^^^ rotr64 x 41

def ssig0x512 (x : Nat) : Nat := rotr64 x 1 ^^^ rotr64 x 8 ^^^ (x >>> 7)

def ssig1x512 (x : Nat) : Nat := rotr64 x 19 ^^^ rotr64 x 61 ^^^ (x >>> 6)

/-- The 64 SHA-256 round constants of FIPS 180-4, in decimal. -/
def K256 : List Nat := [1116352408, 1899447441, 3049323471, 3921009573, 961987163, 1508970993, 2453635748, 2870763221, 3624381080, 310598401, 607225278, 1426881987, 1925078388, 2162078206, 2614888103, 3248222580, 3835390401, 4022224774, 264347078, 604807628, 770255983, 1249150122, 1555081692, 1996064986, 2554220882, 2821834349, 2952996808, 3210313671, 3336571891, 3584528711, 113926993, 338241895, 666307205, 773529912, 1294757372, 1396182291, 1695183700, 1986661051, 2177026350, 2456956037, 2730485921, 2820302411, 3259730800, 3345764771, 3516065817, 3600352804, 4094571909, 275423344, 430227734, 506948616, 659060556, 883997877, 958139571, 1322822218, 1537002063, 1747873779, 1955562222, 2024104815, 2227730452, 2361852424, 2428436474, 2756734187, 3204031479, 3329325298]

/-- The eight SHA-256 initial hash values of FIPS 180-4, in decimal. -/
def IV256 : List Nat := [1779033703, 3144134277, 1013904242, 2773480762, 1359893119, 2600822924, 528734635, 1541459225]

/-- The 80 SHA-512 round constants of FIPS 180-4, in decimal. -/
def K512 : List Nat := [4794697086780616226, 8158064640168781261, 13096744586834688815, 16840607885511220156, 4131703408338449720, 6480981068601479193, 10538285296894168987, 12329834152419229976, 15566598209576043074, 1334009975649890238, 2608012711638119052, 6128411473006802146, 8268148722764581231, 9286055187155687089, 11230858885718282805, 13951009754708518548, 16472876342353939154, 17275323862435702243, 1135362057144423861, 2597628984639134821, 3308224258029322869, 5365058923640841347, 6679025012923562964, 8573033837759648693, 10970295158949994411, 12119686244451234320, 12683024718118986047, 13788192230050041572, 14330467153632333762, 15395433587784984357, 489312712824947311, 1452737877330783856, 2861767655752347644, 3322285676063803686, 5560940570517711597, 5996557281743188959, 7280758554555802590, 8532644243296465576, 9350256976987008742, 10552545826968843579, 11727347734174303076, 12113106623233404929, 14000437183269869457, 14369950271660146224, 15101387698204529176, 15463397548674623760, 17586052441742319658, 1182934255886127544, 1847814050463011016, 2177327727835720531, 2830643537854262169, 3796741975233480872, 4115178125766777443, 5681478168544905931, 6601373596472566643, 7507060721942968483, 8399075790359081724, 8693463985226723168, 9568029438360202098, 10144078919501101548, 10430055236837252648, 11840083180663258601, 13761210420658862357, 14299343276471374635, 14566680578165727644, 15097957966210449927, 16922976911328602910, 17689382322260857208, 500013540394364858, 748580250866718886, 1242879168328830382, 1977374033974150939, 2944078676154940804, 3659926193048069267, 4368137639120453308, 4836135668995329356, 5532061633213252278, 6448918945643986474, 6902733635092675308, 7801388544844847127]

/-- The eight SHA-512/256 initial hash values of FIPS 180-4, in decimal. -/
def IV512x256 : List Nat := [2463787394917988140, 11481187982095705282, 2563595384472711505, 10824532655140301501, 10819967247969091555, 13717434660681038226, 3098927326965381290, 1060366662362279074]

/-- Big-endian byte expansion: `natToBytesBE k n` is the `k`-byte
big-endian representation of `n % 256^k`. -/
def natToBytesBE : Nat → Nat → List Nat
  | 0, _ => []
  | k + 1, n => natToBytesBE k (n / 256) ++ [n % 256]

/-- Group a byte list into big-endian words of `k + 1` bytes each
(structural recursion on a fuel bound so the kernel can evaluate it). -/
def bytesToWordsBEAux (k : Nat) : Nat → List Nat → List Nat
  | 0, _ => []
  | _, [] => []
  | fuel + 1, b :: rest =>
    ((b :: rest).take (k + 1)).foldl (fun acc x => acc * 256 + x) 0 ::
      bytesToWordsBEAux k fuel ((b :: rest).drop (k + 1))

/-- Group a byte list into big-endian words of `k + 1` bytes each. -/
def bytesToWordsBE (k : Nat) (l : List Nat) : List Nat :=
  bytesToWordsBEAux k l.length l

/-- Split a list into chunks of `n + 1` elements (fuel-bounded). -/
def chunksOfAux (n : Nat) : Nat → List Nat → List (List Nat)
  | 0, _ => []
  | _, [] => []
  | fuel + 1, b :: rest =>
    ((b :: rest).take (n + 1)) :: chunksOfAux n fuel ((b :: rest).drop (n + 1))

/-- Split a list into chunks of `n + 1` elements. -/
def chunksOf (n : Nat) (l : List Nat) : List (List Nat) :=
  chunksOfAux n l.length l

/-- Merkle–Damgård padding: append `0x80`, zeros, then the bit length in a
big-endian `lenBytes`-byte field, so the total is a multiple of `blockLen`. -/
def shaPad (blockLen lenBytes : Nat) (msg : List Nat) : List Nat :=
  let zeros := (2 * blockLen - 1 - lenBytes - msg.length % blockLen) % blockLen
  msg ++ 0x80 :: List.replicate zeros 0 ++ natToBytesBE lenBytes (8 * msg.length)

/-- Message-schedule extension shared by SHA-256 and SHA-512: repeatedly push
`σ1 w[i-2] + w[i-7] + σ0 w[i-15] + w[i-16]`. -/
def shaExtend (wrd : Nat → Nat) (s0 s1 : Nat → Nat) (fuel : Nat) (w : Array Nat) : Array Nat :=
  match fuel with
  | 0 => w
  | f + 1 =>
    let i := w.size
    let x := wrd (s1 (w.getD (i - 2) 0) + w.getD (i - 7) 0 + s0 (w.getD (i - 15) 0) +
      w.getD (i - 16) 0)
    shaExtend wrd s0 s1 f (w.push x)

/-- One SHA compression round on the eight-word state. -/
def shaRound (wrd : Nat → Nat) (b0 b1 : Nat → Nat) (mask : Nat)
    (st : List Nat) (kw : Nat × Nat) : List Nat :=
  match st with
  | [a, b, c, d, e, f, g, h] =>
    let t1 := wrd (h + b1 e + shaCh e f g mask + kw.1 + kw.2)
    let t2 := wrd (b0 a + shaMaj a b c)
    [wrd (t1 + t2), a, b, c, wrd (d + t1), e, f, g]
  | st => st

/-- SHA-256 compression of one 64-byte block into the running state. -/
def sha256Block (st : List Nat) (block : List Nat) : List Nat :=
  let w := shaExtend w32 ssig0x256 ssig1x256 48 (Array.mk (bytesToWordsBE 3 block))
  let out := (K256.zip w.toList).foldl (shaRound w32 bsig0x256 bsig1x256 0xffffffff) st
  (st.zip out).map fun p => w32 (p.1 + p.2)

/-- SHA-256 of a byte list, as 32 bytes. -/
def sha256 (msg : List Nat) : List Nat :=
  let st := (chunksOf 63 (shaPad 64 8 msg)).foldl sha256Block IV256
  st.foldr (fun x acc => natToBytesBE 4 x ++ acc) []

/-- SHA-512 compression of one 128-byte block into the running state. -/
def sha512Block (st : List Nat) (block : List Nat) : List Nat :=
  let w := shaExtend w64 ssig0x512 ssig1x512 64 (Array.mk (bytesToWordsBE 7 block))
  let out := (K512.zip w.toList).foldl
    (shaRound w64 bsig0x512 bsig1x512 0xffffffffffffffff) st
  (st.zip out).map fun p => w64 (p.1 + p.2)

/-- SHA-512/256 of a byte list: SHA-512 with the SHA-512/256 IV, truncated
to the first 32 bytes. -/
def sha512x256 (msg : List Nat) : List Nat :=
  let st := (chunksOf 127 (shaPad 128 16 msg)).foldl sha512Block IV512x256
  (st.foldr (fun x acc => natToBytesBE 8 x ++ acc) []).take 32

/-- The tests' `hash_from_u8`: SHA-256 of the single byte `k`.  The
specification writes this `h(k)`. -/
def hashFromU8 (k : Nat) : List Nat := sha256 [k]

/-! ## NodeHash (src/src/accumulator/wasm_node_hash.rs)

`NodeHash` is a tag (`Empty`, `Placeholder`, `Some`) plus an optional
32-byte value.  `Deref` yields the value bytes, or 32 zero bytes when the
value is absent.  The `pollard.rs` module imports this type as
`node_hash::NodeHash`; `wasm_node_hash.rs` is the in-tree definition. -/

inductive NodeHashTy
  | Empty
  | Placeholder
  | Some
deriving DecidableEq, Repr

structure NodeHash where
  ty : NodeHashTy
  val : Option (List Nat)
deriving DecidableEq, Repr

namespace NodeHash

/-- `impl Deref for NodeHash`: the raw bytes (`[0; 32]` when `val` is `None`). -/
def deref (h : NodeHash) : List Nat :=
  match h.val with
  | some v => v
  | none => List.replicate 32 0

/-- `impl Default for NodeHash`: `ty = Empty`, no value. -/
def defaultHash : NodeHash := ⟨NodeHashTy.Empty, none⟩

/-- `NodeHash::empty()`. -/
def empty : NodeHash := defaultHash

/-- `impl From<[u8; 32]> for NodeHash`: a real hash value. -/
def fromBytes (v : List Nat) : NodeHash := ⟨NodeHashTy.Some, some v⟩

/-- `NodeHash::is_empty`. -/
def is_empty (h : NodeHash) : Bool :=
  match h.ty with
  | NodeHashTy.Empty => true
  | _ => false

/-- `NodeHash::parent_hash`: SHA-512/256 over the dereferenced bytes of
both operands (the result always carries `ty = Some`). -/
def parent_hash (left right : NodeHash) : NodeHash :=
  fromBytes (sha512x256 (deref left ++ deref right))

/-- `NodeHash::placeholder()`. -/
def placeholder : NodeHash := ⟨NodeHashTy.Placeholder, none⟩

/-- The `#[derive(PartialEq)]` equality on `NodeHashTy`: variant equality. -/
def tyRustEq : NodeHashTy → NodeHashTy → Bool
  | NodeHashTy.Empty, NodeHashTy.Empty => true
  | NodeHashTy.Placeholder, NodeHashTy.Placeholder => true
  | NodeHashTy.Some, NodeHashTy.Some => true
  | _, _ => false

/-- The `#[derive(PartialEq)]` equality on `NodeHash`: componentwise over
the `ty` tag and the optional byte array. -/
def rustEq (a b : NodeHash) : Bool :=
  tyRustEq a.ty b.ty && decide (a.val = b.val)

end NodeHash

/-! ## Stump (src/src/accumulator/stump.rs)

The early-revision stump in the tree: a leaf counter and a vector of bare
32-byte roots.  `modify(utxos, _stxos)` ignores its second argument and
only performs additions; it returns nothing and cannot fail. -/

structure Stump where
  leafs : Nat
  roots : List (List Nat)
deriving DecidableEq, Repr

/-- Modelled from the spec: `stump.rs` calls `types::parent_hash`, and the
`types` module is not under `src/`.  Per §4.2 of the spec the parent of two
32-byte digests is the host hash — SHA-512/256 — of their concatenation
(the stump's bare root type has no Empty variant, so only the hashing
branch of §4.2 can apply). -/
def types_parent_hash (left right : List Nat) : List Nat :=
  sha512x256 (left ++ right)

namespace Stump

/-- `Stump::new()`. -/
def new : Stump := ⟨0, []⟩

/-- The carry loop of `Stump::add_single`: while bit `h` of `leafs` is set,
pop the last root (a no-op `if let` when the vector is empty) and fold it
into the carried hash on the left.  Structural fuel keeps the definition
kernel-executable; 65 units suffice for any `u64` leaf count. -/
def addLoop : Nat → Nat → Nat → List (List Nat) → List Nat → List (List Nat) × List Nat
  | 0, _, _, roots, toAdd => (roots, toAdd)
  | fuel + 1, leafs, h, roots, toAdd =>
    if (leafs >>> h) &&& 1 = 1 then
      let toAdd' := match roots.getLast? with
        | some root => types_parent_hash root toAdd
        | none => toAdd
      addLoop fuel leafs (h + 1) roots.dropLast toAdd'
    else (roots, toAdd)

/-- `Stump::add_single`. -/
def add_single (s : Stump) (node : List Nat) : Stump :=
  let rt := addLoop 65 s.leafs 0 s.roots node
  ⟨s.leafs + 1, rt.1 ++ [rt.2]⟩

/-- `Stump::add`. -/
def add (s : Stump) (utxos : List (List Nat)) : Stump :=
  utxos.foldl add_single s

/-- `Stump::modify(utxos, _stxos)`: the deletion argument is unused. -/
def modify (s : Stump) (utxos _stxos : List (List Nat)) : Stump :=
  add s utxos

/-- `Stump::undo(old_state)`. -/
def undo (_s : Stump) (old_state : Stump) : Stump := old_state

end Stump

/-! ## Positional arithmetic (`util`, modelled from the spec)

`pollard.rs` imports `tree_rows`, `detect_row` and `detwin` from
`super::util`, which is not under `src/`; they are modelled here from §4.1
of the specification.  (`detect_offset` itself *is* in `pollard.rs` and is
embedded verbatim further below.) -/

/-- Modelled from the spec: `util::tree_rows(n)` — the number of rows of the
smallest perfect tree covering `n` leaves, `⌈log₂ n⌉` with
`tree_rows(0) = 0` (fuel-bounded search for the least `r` with `n ≤ 2^r`). -/
def treeRowsAux (n : Nat) : Nat → Nat → Nat
  | 0, r => r
  | fuel + 1, r => if n ≤ 1 <<< r then r else treeRowsAux n fuel (r + 1)

/-- Modelled from the spec: `util::tree_rows(n)`. -/
def tree_rows (n : Nat) : Nat := treeRowsAux n 65 0

/-- Modelled from the spec: the loop of `util::detect_row` — count the
leading one-bits of `pos` starting at bit `rows` and going down. -/
def detectRowAux (pos rows : Nat) : Nat → Nat → Nat
  | 0, h => h
  | fuel + 1, h =>
    if pos &&& ((1 <<< rows) >>> h) ≠ 0 then detectRowAux pos rows fuel (h + 1) else h

/-- Modelled from the spec: `util::detect_row(pos, rows)` — the row of
position `pos` in a forest of `rows` rows (0 = leaves). -/
def detect_row (pos rows : Nat) : Nat := detectRowAux pos rows (rows + 2) 0

/-- Modelled from the spec: `util::parent(pos, rows) = (pos >> 1) + (1 << rows)`. -/
def parentPos (pos rows : Nat) : Nat := (pos >>> 1) + (1 <<< rows)

/-- Insert into a sorted list of positions. -/
def insertSorted (x : Nat) : List Nat → List Nat
  | [] => [x]
  | y :: ys => if x ≤ y then x :: y :: ys else y :: insertSorted x ys

/-- Sort a list of positions ascending. -/
def sortPositions (l : List Nat) : List Nat := l.foldr insertSorted []

/-- Modelled from the spec: one `detwin` pass — replace the first adjacent
sibling pair of the sorted list by its parent (siblings share `pos / 2`). -/
def detwinPass (rows : Nat) : List Nat → Option (List Nat)
  | a :: b :: rest =>
    if a / 2 = b / 2 then some (parentPos a rows :: rest)
    else (detwinPass rows (b :: rest)).map (a :: ·)
  | _ => none

/-- Modelled from the spec: iterate `detwinPass` (re-sorting between passes)
to a fixpoint; each pass shrinks the list, so the length bounds the fuel. -/
def detwinAux (rows : Nat) : Nat → List Nat → List Nat
  | 0, l => l
  | fuel + 1, l =>
    match detwinPass rows l with
    | some l2 => detwinAux rows fuel (sortPositions l2)
    | none => l

/-- Modelled from the spec: `util::detwin(positions, rows)` — repeatedly
replace two sibling positions by their parent, to a fixpoint. -/
def detwin (positions : List Nat) (rows : Nat) : List Nat :=
  detwinAux rows positions.length (sortPositions positions)

/-! ## Pollard (src/src/accumulator/pollard.rs)

The `Rc<PollardNode>` heap is modelled as an arena: node ids are indices
into `arena`, an `Rc` clone is a copied id, a `Cell`/`RefCell` write is a
functional update of the addressed entry, and a `Weak` aunt link is a plain
optional id (the model never deallocates, and no operation modelled here
reads an aunt link after its target has been dropped by the source code).
Runtime failures are explicit: `panicErr` stands for a Rust panic (an
`unwrap`/`expect` failure, an out-of-bounds index, or a debug-mode
arithmetic overflow), `resultErr` for an `Err(..)` value returned through
`Result`. -/

inductive RtError
  | panicErr (msg : String)
  | resultErr (msg : String)
deriving DecidableEq, Repr

/-- A `PollardNode`: remember flag, hash cell, weak aunt link, owned nieces. -/
structure PNode where
  remember : Bool
  hash : NodeHash
  aunt : Option Nat
  leftNiece : Option Nat
  rightNiece : Option Nat
deriving DecidableEq, Repr

/-- `PollardNode::default()`: not remembered, empty hash, no links. -/
def PNode.defaultNode : PNode := ⟨false, NodeHash.defaultHash, none, none, none⟩

instance : Inhabited PNode := ⟨PNode.defaultNode⟩

/-- `PollardAddition`: the hash to add plus its remember flag. -/
structure PollardAddition where
  hash : NodeHash
  remember : Bool
deriving DecidableEq, Repr

/-- `UndoDataAddition { num_adds, roots_destroyed }`. -/
structure UndoDataAddition where
  num_adds : Nat
  roots_destroyed : List Nat
deriving DecidableEq, Repr

/-- `UndoData { add }`. -/
structure UndoData where
  add : UndoDataAddition
deriving DecidableEq, Repr

/-- The `Pollard`: the node arena, the 64 root slots (ids), and the leaf
counter. -/
structure Pollard where
  arena : List PNode
  roots : List (Option Nat)
  leaves : Nat
deriving DecidableEq, Repr

namespace Pollard

/-- `Pollard::new()`. -/
def new : Pollard := ⟨[], List.replicate 64 none, 0⟩

/-- Look a node up by id (ids handed out by `alloc` are always in range). -/
def node (p : Pollard) (id : Nat) : PNode := p.arena.getD id PNode.defaultNode

/-- `PollardNode::hash()` (reads the `Cell`). -/
def nodeHash (p : Pollard) (id : Nat) : NodeHash := (node p id).hash

/-- `PollardNode::aunt()`: the weak link, upgraded (the model never frees). -/
def nodeAunt (p : Pollard) (id : Nat) : Option Nat := (node p id).aunt

/-- `PollardNode::left_niece()`. -/
def nodeLeftNiece (p : Pollard) (id : Nat) : Option Nat := (node p id).leftNiece

/-- `PollardNode::right_niece()`. -/
def nodeRightNiece (p : Pollard) (id : Nat) : Option Nat := (node p id).rightNiece

/-- Write the hash `Cell` of a node. -/
def setHash (p : Pollard) (id : Nat) (h : NodeHash) : Pollard :=
  { p with arena := p.arena.set id { node p id with hash := h } }

/-- `PollardNode::set_aunt` (also used with `none` for `*aunt = None`). -/
def setAunt (p : Pollard) (id : Nat) (a : Option Nat) : Pollard :=
  { p with arena := p.arena.set id { node p id with aunt := a } }

/-- `PollardNode::set_niece`. -/
def setNiece (p : Pollard) (id : Nat) (l r : Option Nat) : Pollard :=
  { p with arena := p.arena.set id { node p id with leftNiece := l, rightNiece := r } }

/-- Write only the left niece (one half of a `mem::swap`). -/
def setLeftNiece (p : Pollard) (id : Nat) (l : Option Nat) : Pollard :=
  { p with arena := p.arena.set id { node p id with leftNiece := l } }

/-- Write only the right niece (one half of a `mem::swap`). -/
def setRightNiece (p : Pollard) (id : Nat) (r : Option Nat) : Pollard :=
  { p with arena := p.arena.set id { node p id with rightNiece := r } }

/-- Allocate a fresh node (`Rc::new`), returning its id. -/
def alloc (p : Pollard) (n : PNode) : Pollard × Nat :=
  ({ p with arena := p.arena ++ [n] }, p.arena.length)

/-- `PollardNode::sibling()`: via the aunt, compare the aunt's left niece's
hash with our own to pick the other niece. -/
def sibling (p : Pollard) (id : Nat) : Option Nat := do
  let a ← nodeAunt p id
  let ln ← nodeLeftNiece p a
  if nodeHash p ln = nodeHash p id then nodeRightNiece p a else nodeLeftNiece p a

/-- `PollardNode::grandparent()`: `self.aunt()?.aunt()`. -/
def grandparent (p : Pollard) (id : Nat) : Option Nat := do
  let a ← nodeAunt p id
  nodeAunt p a

/-- `PollardNode::recompute_hashes()`: rewrite this node's hash from its
nieces and recurse into the aunt.  Rust mutates in place, so the state
accumulated before an early `None` return is kept: the result pairs the
(possibly partially updated) state with the `Option<()>` outcome. -/
def recompute_hashes : Nat → Pollard → Nat → Pollard × Option Unit
  | 0, p, _ => (p, none)
  | fuel + 1, p, id =>
    match nodeLeftNiece p id with
    | none => (p, none)
    | some l =>
      match nodeRightNiece p id with
      | none => (p, none)
      | some r =>
        let p := setHash p id (NodeHash.parent_hash (nodeHash p l) (nodeHash p r))
        match nodeAunt p id with
        | some a => recompute_hashes fuel p a
        | none => (p, some ())

/-- `PollardNode::migrate_up()`: hoist this node into its aunt's place under
the grandparent, keep the former aunt and the sibling as its nieces, and
recompute ancestor hashes.  `unwrap` failures are panics; `?` returns
`none` keeping the mutations made so far. -/
def migrate_up (p : Pollard) (id : Nat) : Except RtError (Pollard × Option Unit) :=
  match nodeAunt p id with
  | none => Except.error (RtError.panicErr "migrate_up: unwrap on None aunt")
  | some aunt =>
    match nodeAunt p aunt with
    | none => Except.ok (p, none)
    | some gp =>
      match sibling p id with
      | none => Except.error (RtError.panicErr "migrate_up: unwrap on None sibling")
      | some sib =>
        match nodeLeftNiece p aunt with
        | none => Except.ok (p, none)
        | some auntL =>
          let selfOpt := if nodeHash p auntL = nodeHash p id
            then nodeLeftNiece p aunt else nodeRightNiece p aunt
          match nodeLeftNiece p gp with
          | none => Except.ok (p, none)
          | some gpL =>
            let lr := if nodeHash p gpL = nodeHash p aunt
              then (selfOpt, nodeRightNiece p gp)
              else (nodeLeftNiece p gp, selfOpt)
            let p := setNiece p gp lr.1 lr.2
            let p := setNiece p id (some aunt) (some sib)
            match selfOpt with
            | none => Except.ok (p, none)
            | some s =>
              let pr := recompute_hashes (p.arena.length + 1) p s
              Except.ok (pr.1, pr.2)

/-- `PollardNode::swap_nieces(other)`. -/
def swapNieces (p : Pollard) (a b : Nat) : Pollard :=
  let al := nodeLeftNiece p a
  let ar := nodeRightNiece p a
  let bl := nodeLeftNiece p b
  let br := nodeRightNiece p b
  setNiece (setNiece p a bl br) b al ar

/-- `o.map(|n| n.set_aunt(a))`: update the aunt link of an optional niece. -/
def setAuntIfSome (p : Pollard) (o : Option Nat) (a : Nat) : Pollard :=
  match o with
  | some n => setAunt p n (some a)
  | none => p

/-- `x.left_niece().map(|n| n.set_aunt(x)); x.right_niece().map(...)` — the
aunt rewiring performed on both nodes after a niece swap in `add_single`. -/
def rewireNieceAunts (p : Pollard) (id : Nat) : Pollard :=
  let p2 := setAuntIfSome p (nodeLeftNiece p id) id
  setAuntIfSome p2 (nodeRightNiece p2 id) id

/-- One merge of the `Pollard::add_single` carry loop: empty slot `row`
(the `mem::replace`), build the new root over the old root and the carried
node, swap nieces, rewire the nieces' aunt links, and — when remembered —
link the merged pair under the new root.  Returns the state and the new
root's id. -/
def mergeStep (p : Pollard) (row nid oldRoot : Nat) : Pollard × Nat :=
  let p := { p with roots := p.roots.set row none }
  let newRootHash := NodeHash.parent_hash (nodeHash p oldRoot) (nodeHash p nid)
  let rem := (node p oldRoot).remember || (node p nid).remember
  let pn := alloc p ⟨rem, newRootHash, none, none, none⟩
  let p := pn.1
  let newRoot := pn.2
  let p := swapNieces p nid oldRoot
  let p := rewireNieceAunts p nid
  let p := rewireNieceAunts p oldRoot
  let p := if rem then
      setNiece (setAunt (setAunt p oldRoot (some newRoot)) nid (some newRoot))
        newRoot (some oldRoot) (some nid)
    else p
  (p, newRoot)

/-- The carry loop of `Pollard::add_single`: while bit `row` of `leaves` is
set, take the old root out of its slot (`expect` panics on `None`), skip it
if its hash is empty (the slot stays `None`), otherwise perform one
`mergeStep`.  Returns the final row and node id. -/
def addLoop : Nat → Pollard → Nat → Nat → Except RtError (Pollard × Nat × Nat)
  | 0, _, _, _ => Except.error (RtError.panicErr "addLoop: fuel (unreachable for u64 leaves)")
  | fuel + 1, p, row, nid =>
    if (p.leaves >>> row) &&& 1 = 1 then
      if h : row < p.roots.length then
        match p.roots.get ⟨row, h⟩ with
        | none => Except.error (RtError.panicErr "Root not found")
        | some oldRoot =>
          if (nodeHash p oldRoot).is_empty then
            let p := { p with roots := p.roots.set row none }
            addLoop fuel p (row + 1) nid
          else
            let pr := mergeStep p row nid oldRoot
            addLoop fuel pr.1 (row + 1) pr.2
      else Except.error (RtError.panicErr "index out of bounds: roots")
    else Except.ok (p, row, nid)

/-- `Pollard::add_single`. -/
def add_single (p : Pollard) (a : PollardAddition) : Except RtError Pollard := do
  let pn := alloc p ⟨a.remember, a.hash, none, none, none⟩
  let prn ← addLoop 65 pn.1 0 pn.2
  let p := prn.1
  if prn.2.1 < p.roots.length then
    Except.ok { p with roots := p.roots.set prn.2.1 (some prn.2.2), leaves := p.leaves + 1 }
  else Except.error (RtError.panicErr "index out of bounds: roots")

/-- `Pollard::detect_offset(pos, num_leaves)` — the loop, with debug-mode
panics on the `u8`/`u64` subtractions that can underflow. -/
def detectOffsetLoop (numLeaves nr : Nat) :
    Nat → Nat → Nat → Nat → Except RtError (Nat × Nat × Nat)
  | 0, _, _, _ => Except.error (RtError.panicErr "detect_offset: fuel (unreachable)")
  | fuel + 1, biggerTrees, tr, marker =>
    if (w64 (marker <<< nr)) &&& ((2 <<< tr) - 1) ≥ (1 <<< tr) &&& numLeaves then
      let treeSize := (1 <<< tr) &&& numLeaves
      if marker < treeSize then
        Except.error (RtError.panicErr "attempt to subtract with overflow")
      else if biggerTrees = 0 then
        Except.error (RtError.panicErr "attempt to subtract with overflow")
      else if tr = 0 then
        Except.error (RtError.panicErr "attempt to subtract with overflow")
      else
        detectOffsetLoop numLeaves nr fuel (biggerTrees - 1) (tr - 1) (marker - treeSize)
    else
      if nr > tr then Except.error (RtError.panicErr "attempt to subtract with overflow")
      else Except.ok (biggerTrees, tr - nr, marker)

/-- `Pollard::detect_offset` (private, in `pollard.rs`): which root the
position falls under, the depth below that root, and the navigation bits. -/
def detect_offset (pos numLeaves : Nat) : Except RtError (Nat × Nat × Nat) :=
  let tr := tree_rows numLeaves
  let nr := detect_row pos tr
  detectOffsetLoop numLeaves nr (tr + 2) tr tr pos

/-- The descent loop of `grab_position`: `for row in 0..(depth - 1)` follow
the niece selected by bit `depth - row - 1` of `pos` (a missing niece is a
`?`-style `None`). -/
def grabDescend (p : Pollard) (pos depth : Nat) : Nat → Nat → Nat → Option Nat
  | 0, _, id => some id
  | fuel + 1, row, id =>
    let next := if (pos >>> (depth - row - 1)) &&& 1 = 1
      then nodeLeftNiece p id else nodeRightNiece p id
    match next with
    | none => none
    | some nid => grabDescend p pos depth fuel (row + 1) nid

/-- `Pollard::grab_position(pos)`: resolve a position to `(node, sibling)`
ids.  Returns `ok none` for a `?`-failure inside the `Option`, and a panic
for the `roots[root].unwrap()` on an empty slot. -/
def grab_position (p : Pollard) (pos : Nat) : Except RtError (Option (Nat × Nat)) := do
  let rdb ← detect_offset pos p.leaves
  let root := rdb.1
  let depth := rdb.2.1
  let bits := rdb.2.2
  if h : root < p.roots.length then
    match p.roots.get ⟨root, h⟩ with
    | none => Except.error (RtError.panicErr "grab_position: unwrap on None root")
    | some rootId =>
      if depth = 0 then Except.ok (some (rootId, rootId))
      else
        match grabDescend p pos depth (depth - 1) 0 rootId with
        | none => Except.ok none
        | some nid =>
          if bits &&& 1 = 0 then
            match nodeLeftNiece p nid, nodeRightNiece p nid with
            | some l, some r => Except.ok (some (l, r))
            | _, _ => Except.ok none
          else
            match nodeRightNiece p nid, nodeLeftNiece p nid with
            | some r, some l => Except.ok (some (r, l))
            | _, _ => Except.ok none
  else Except.error (RtError.panicErr "index out of bounds: roots")

/-- The `for i in 0..64` scan of `delete_single`'s root branch: `unwrap`
every slot in turn (panicking on an empty one) until the hash matches, then
overwrite the slot with a fresh `PollardNode::default()`. -/
def rootScanDelete (p : Pollard) (h : NodeHash) : Nat → Nat → Except RtError Pollard
  | _, 0 => Except.error (RtError.resultErr "Root not found")
  | i, fuel + 1 =>
    match p.roots.getD i none with
    | none => Except.error (RtError.panicErr "delete_single: unwrap on None root slot")
    | some rid =>
      if nodeHash p rid = h then
        let pn := alloc p PNode.defaultNode
        Except.ok { pn.1 with roots := pn.1.roots.set i (some pn.2) }
      else rootScanDelete p h (i + 1) fuel

/-- The `for i in 0..64` scan of `delete_single`'s parent-is-root branch:
skip empty slots, and promote the sibling into the slot whose root hash
equals the aunt's hash. -/
def parentRootScan (p : Pollard) (auntHash : NodeHash) (sib : Nat) :
    Nat → Nat → Except RtError Pollard
  | _, 0 => Except.error (RtError.resultErr "Root not found")
  | i, fuel + 1 =>
    match p.roots.getD i none with
    | none => parentRootScan p auntHash sib (i + 1) fuel
    | some rid =>
      if nodeHash p rid = auntHash then
        Except.ok { p with roots := p.roots.set i (some sib) }
      else parentRootScan p auntHash sib (i + 1) fuel

/-- `Pollard::delete_single(node)`: a root becomes a default (empty-hash)
node in its slot; a root's child is replaced by promoting its sibling into
the root slot; otherwise the sibling migrates up. -/
def delete_single (p : Pollard) (id : Nat) : Except RtError Pollard :=
  if (node p id).aunt = none then
    rootScanDelete p (nodeHash p id) 0 64
  else
    match sibling p id with
    | none => Except.error (RtError.resultErr "Sibling not found")
    | some sib =>
      match grandparent p id with
      | none =>
        match nodeAunt p id with
        | none => Except.error (RtError.panicErr "delete_single: unwrap on None aunt")
        | some aunt => parentRootScan p (nodeHash p aunt) sib 0 64
      | some _ => (migrate_up p sib).map (·.1)

/-- Resolve every (detwinned) deletion position via `grab_position` — the
`map(..).collect::<Vec<_>>()` step of `modify`, before any mutation. -/
def resolveAll (p : Pollard) : List Nat → Except RtError (List (Option (Nat × Nat)))
  | [] => Except.ok []
  | pos :: rest => do
    let r ← grab_position p pos
    let rs ← resolveAll p rest
    Except.ok (r :: rs)

/-- The deletion pass of `modify`: skip unresolved positions, and `unwrap`
the `delete_single` result — an `Err` becomes a panic. -/
def deleteAll (p : Pollard) : List (Option (Nat × Nat)) → Except RtError Pollard
  | [] => Except.ok p
  | none :: rest => deleteAll p rest
  | some nd :: rest =>
    match delete_single p nd.1 with
    | Except.ok p2 => deleteAll p2 rest
    | Except.error (RtError.resultErr m) => Except.error (RtError.panicErr m)
    | Except.error e => Except.error e

/-- The addition pass of `modify`: `add_single` in order. -/
def addAll (p : Pollard) : List PollardAddition → Except RtError Pollard
  | [] => Except.ok p
  | a :: rest => do
    let p2 ← add_single p a
    addAll p2 rest

/-- `Pollard::modify(adds, del_positions)`: detwin the deletions, resolve
them all, delete, then add in order. -/
def modify (p : Pollard) (adds : List PollardAddition) (delPositions : List Nat) :
    Except RtError Pollard := do
  let dels := detwin delPositions (tree_rows p.leaves)
  let resolved ← resolveAll p dels
  let p2 ← deleteAll p resolved
  addAll p2 adds

/-- The `while let Some(aunt) = current.aunt()` ascent of `prove_single`:
push every aunt hash whose aunt in turn exists (i.e. skip roots). -/
def proveAscend (p : Pollard) : Nat → Nat → List NodeHash → List NodeHash
  | 0, _, acc => acc
  | fuel + 1, cur, acc =>
    match nodeAunt p cur with
    | none => acc
    | some aunt =>
      let acc := if (nodeAunt p aunt).isSome then acc ++ [nodeHash p aunt] else acc
      proveAscend p fuel aunt acc

/-- `Pollard::prove_single(pos)`: the sibling's hash followed by the
non-root aunt hashes up the tree. -/
def prove_single (p : Pollard) (pos : Nat) : Except RtError (List NodeHash) := do
  let r ← grab_position p pos
  match r with
  | none => Except.error (RtError.resultErr "Position not found")
  | some ns => Except.ok (proveAscend p (p.arena.length + 1) ns.1 [nodeHash p ns.2])

/-- The `collect::<Result<..>>` over `prove_single` results. -/
def proveAll (p : Pollard) : List Nat → Except RtError (List (List NodeHash))
  | [] => Except.ok []
  | pos :: rest => do
    let pr ← prove_single p pos
    let rs ← proveAll p rest
    Except.ok (pr :: rs)

/-- `Pollard::prove(positions)`: detwin, then prove each position (the
source returns a bare `Vec<Vec<NodeHash>>`; the `FIXME` notes it should be
a `Proof`). -/
def prove (p : Pollard) (positions : List Nat) : Except RtError (List (List NodeHash)) :=
  proveAll p (detwin positions (tree_rows p.leaves))

/-- `Pollard::undo_single_add()`: pop the lowest occupied root; when it is
not at row 0, unswap the nieces of its two children, clear the old root's
aunt, move it down one row, and decrement `leaves`. -/
def undo_single_add (p : Pollard) : Except RtError Pollard :=
  match p.roots.findIdx? Option.isSome with
  | none => Except.error (RtError.panicErr "undo_single_add: unwrap on None first_row")
  | some firstRow =>
    if firstRow = 0 then Except.ok { p with roots := p.roots.set 0 none }
    else
      match p.roots.getD firstRow none with
      | none => Except.error (RtError.panicErr "undo_single_add: unreachable empty slot")
      | some nid =>
        match (node p nid).leftNiece with
        | none => Except.error (RtError.panicErr "undo_single_add: unwrap on None left niece")
        | some oldRoot =>
          match (node p nid).rightNiece with
          | none => Except.error (RtError.panicErr "undo_single_add: unwrap on None right niece")
          | some undoNode =>
            let a := (node p undoNode).leftNiece
            let b := (node p oldRoot).leftNiece
            let p := setLeftNiece (setLeftNiece p undoNode b) oldRoot a
            let c := (node p undoNode).rightNiece
            let d := (node p oldRoot).rightNiece
            let p := setRightNiece (setRightNiece p undoNode d) oldRoot c
            let p := setAunt p oldRoot none
            let p := { p with
              roots := (p.roots.set (firstRow - 1) (some oldRoot)).set firstRow none }
            if p.leaves = 0 then
              Except.error (RtError.panicErr "attempt to subtract with overflow")
            else Except.ok { p with leaves := p.leaves - 1 }

/-- The `for _ in 0..num_adds` loop of `undo`. -/
def undoAddsLoop : Nat → Pollard → Except RtError Pollard
  | 0, p => Except.ok p
  | n + 1, p => do
    let p2 ← undo_single_add p
    undoAddsLoop n p2

/-- The `for i in undo_data.add.roots_destroyed` loop of `undo`: each round
computes `self.leaves - num_adds` (a debug-mode underflow panics; the
`root_position` call whose result is discarded is pure `util` arithmetic
and is not modelled) and plants a fresh empty-hash root at slot `i`. -/
def undoRestoreRoots (numAdds : Nat) : List Nat → Pollard → Except RtError Pollard
  | [], p => Except.ok p
  | i :: rest, p =>
    if p.leaves < numAdds then
      Except.error (RtError.panicErr "attempt to subtract with overflow")
    else
      let pn := alloc p ⟨false, NodeHash.empty, none, none, none⟩
      if i < pn.1.roots.length then
        undoRestoreRoots numAdds rest { pn.1 with roots := pn.1.roots.set i (some pn.2) }
      else Except.error (RtError.panicErr "index out of bounds: roots")

/-- `Pollard::undo(undo_data)`: undo each addition, restore destroyed empty
roots, then subtract `num_adds` from `leaves` *again* (each
`undo_single_add` outside row 0 already decremented it). -/
def undo (p : Pollard) (u : UndoData) : Except RtError Pollard := do
  let p2 ← undoAddsLoop u.add.num_adds p
  let p3 ← undoRestoreRoots u.add.num_adds u.add.roots_destroyed p2
  if p3.leaves < u.add.num_adds then
    Except.error (RtError.panicErr "attempt to subtract with overflow")
  else Except.ok { p3 with leaves := p3.leaves - u.add.num_adds }

/-- `impl PartialEq for Pollard`: zip the root slots and compare hashes
slot-wise; `leaves` and the cached structure are not consulted. -/
def rustEq (p q : Pollard) : Bool :=
  (p.roots.zip q.roots).all fun s =>
    match s with
    | (some a, some b) => decide (nodeHash p a = nodeHash q b)
    | (none, none) => true
    | _ => false

end Pollard

end Rustreexo

namespace Rustreexo

/-! ## Literal digests used in concrete statements -/

/-- SHA-512/256 of 64 zero bytes (what `parent_hash(Empty, Empty)` computes). -/
def zeros64Digest : List Nat := [0x8a, 0xee, 0xcf, 0xa0, 0xb9, 0xf2, 0xac, 0x78, 0x18, 0x86, 0x3b, 0x13, 0x62, 0x24, 0x1e, 0x4f, 0x32, 0xd0, 0x6b, 0x10, 0x0a, 0xe9, 0xd1, 0xc0, 0xfb, 0xcc, 0x4e, 0xd6, 0x1b, 0x91, 0xb1, 0x7a]

/-- SHA-512/256 of 32 one-bytes followed by 32 zero bytes. -/
def onesZerosDigest : List Nat := [0x3d, 0x35, 0x28, 0x2d, 0x28, 0xe5, 0x79, 0x1b, 0x62, 0xdb, 0xaa, 0xc7, 0x79, 0xb3, 0x0d, 0x97, 0x37, 0xbb, 0xdb, 0x65, 0x5f, 0x40, 0x15, 0x48, 0xa3, 0x12, 0x32, 0xbb, 0xbd, 0xf7, 0xec, 0xf5]

/-- SHA-256 of the single byte `0`: the leaf digest `h(0)`. -/
def leafD0 : List Nat := [0x6e, 0x34, 0x0b, 0x9c, 0xff, 0xb3, 0x7a, 0x98, 0x9c, 0xa5, 0x44, 0xe6, 0xbb, 0x78, 0x0a, 0x2c, 0x78, 0x90, 0x1d, 0x3f, 0xb3, 0x37, 0x38, 0x76, 0x85, 0x11, 0xa3, 0x06, 0x17, 0xaf, 0xa0, 0x1d]

/-- SHA-256 of the single byte `1`: the leaf digest `h(1)`. -/
def leafD1 : List Nat := [0x4b, 0xf5, 0x12, 0x2f, 0x34, 0x45, 0x54, 0xc5, 0x3b, 0xde, 0x2e, 0xbb, 0x8c, 0xd2, 0xb7, 0xe3, 0xd1, 0x60, 0x0a, 0xd6, 0x31, 0xc3, 0x85, 0xa5, 0xd7, 0xcc, 0xe2, 0x3c, 0x77, 0x85, 0x45, 0x9a]

/-- SHA-256 of the single byte `2`: the leaf digest `h(2)`. -/
def leafD2 : List Nat := [0xdb, 0xc1, 0xb4, 0xc9, 0x00, 0xff, 0xe4, 0x8d, 0x57, 0x5b, 0x5d, 0xa5, 0xc6, 0x38, 0x04, 0x01, 0x25, 0xf6, 0x5d, 0xb0, 0xfe, 0x3e, 0x24, 0x49, 0x4b, 0x76, 0xea, 0x98, 0x64, 0x57, 0xd9, 0x86]

/-- SHA-256 of the single byte `3`: the leaf digest `h(3)`. -/
def leafD3 : List Nat := [0x08, 0x4f, 0xed, 0x08, 0xb9, 0x78, 0xaf, 0x4d, 0x7d, 0x19, 0x6a, 0x74, 0x46, 0xa8, 0x6b, 0x58, 0x00, 0x9e, 0x63, 0x6b, 0x61, 0x1d, 0xb1, 0x62, 0x11, 0xb6, 0x5a, 0x9a, 0xad, 0xff, 0x29, 0xc5]

/-- SHA-256 of the single byte `4`: the leaf digest `h(4)`. -/
def leafD4 : List Nat := [0xe5, 0x2d, 0x9c, 0x50, 0x8c, 0x50, 0x23, 0x47, 0x34, 0x4d, 0x8c, 0x07, 0xad, 0x91, 0xcb, 0xd6, 0x06, 0x8a, 0xfc, 0x75, 0xff, 0x62, 0x92, 0xf0, 0x62, 0xa0, 0x9c, 0xa3, 0x81, 0xc8, 0x9e, 0x71]

/-- SHA-256 of the single byte `5`: the leaf digest `h(5)`. -/
def leafD5 : List Nat := [0xe7, 0x7b, 0x9a, 0x9a, 0xe9, 0xe3, 0x0b, 0x0d, 0xbd, 0xb6, 0xf5, 0x10, 0xa2, 0x64, 0xef, 0x9d, 0xe7, 0x81, 0x50, 0x1d, 0x7b, 0x6b, 0x92, 0xae, 0x89, 0xeb, 0x05, 0x9c, 0x5a, 0xb7, 0x43, 0xdb]

/-- SHA-256 of the single byte `6`: the leaf digest `h(6)`. -/
def leafD6 : List Nat := [0x67, 0x58, 0x6e, 0x98, 0xfa, 0xd2, 0x7d, 0xa0, 0xb9, 0x96, 0x8b, 0xc0, 0x39, 0xa1, 0xef, 0x34, 0xc9, 0x39, 0xb9, 0xb8, 0xe5, 0x23, 0xa8, 0xbe, 0xf8, 0x9d, 0x47, 0x86, 0x08, 0xc5, 0xec, 0xf6]

/-- SHA-256 of the single byte `7`: the leaf digest `h(7)`. -/
def leafD7 : List Nat := [0xca, 0x35, 0x87, 0x58, 0xf6, 0xd2, 0x7e, 0x6c, 0xf4, 0x52, 0x72, 0x93, 0x79, 0x77, 0xa7, 0x48, 0xfd, 0x88, 0x39, 0x1d, 0xb6, 0x79, 0xce, 0xda, 0x7d, 0xc7, 0xbf, 0x1f, 0x00, 0x5e, 0xe8, 0x79]

/-- Digest of `parent_hash(h(0), h(1))` in the eight-leaf scenario. -/
def nodeD01 : List Nat := [0x02, 0x24, 0x2b, 0x37, 0xd8, 0xe8, 0x51, 0xf1, 0xe8, 0x6f, 0x46, 0x79, 0x02, 0x98, 0xc7, 0x09, 0x7d, 0xf0, 0x68, 0x93, 0xd6, 0x22, 0x6b, 0x7c, 0x14, 0x53, 0xc2, 0x13, 0xe9, 0x17, 0x17, 0xde]

/-- Digest of `parent_hash(h(2), h(3))` in the eight-leaf scenario. -/
def nodeD23 : List Nat := [0x95, 0x76, 0xf4, 0xad, 0xe6, 0xe9, 0xbc, 0x3a, 0x64, 0x58, 0xb5, 0x06, 0xce, 0x3e, 0x4e, 0x89, 0x0d, 0xf2, 0x9c, 0xb1, 0x4c, 0xb5, 0xd3, 0xd8, 0x87, 0x67, 0x2a, 0xef, 0x55, 0x64, 0x7a, 0x2b]

/-- Digest of `parent_hash(h(4), h(5))` in the eight-leaf scenario. -/
def nodeD45 : List Nat := [0x9e, 0xec, 0x58, 0x8c, 0x41, 0xd8, 0x7b, 0x16, 0xb0, 0xee, 0x22, 0x6c, 0xb3, 0x8d, 0xa3, 0x86, 0x4f, 0x95, 0x37, 0x63, 0x23, 0x21, 0xd8, 0xbe, 0x85, 0x5a, 0x73, 0xd5, 0x61, 0x6d, 0xcc, 0x73]

/-- Digest of `parent_hash(h(6), h(7))` in the eight-leaf scenario. -/
def nodeD67 : List Nat := [0x34, 0x02, 0x8b, 0xbc, 0x87, 0x00, 0x0c, 0x39, 0x47, 0x6c, 0xdc, 0x60, 0xcf, 0x80, 0xca, 0x32, 0xd5, 0x79, 0xb3, 0xa0, 0xe2, 0xd3, 0xf8, 0x0e, 0x0a, 0xd8, 0xc3, 0x73, 0x9a, 0x01, 0xaa, 0x91]

/-- Digest of `parent of the first two pair nodes` in the eight-leaf scenario. -/
def nodeD0123 : List Nat := [0xdf, 0x46, 0xb1, 0x7b, 0xe5, 0xf6, 0x6f, 0x07, 0x50, 0xa4, 0xb3, 0xef, 0xa2, 0x6d, 0x46, 0x79, 0xdb, 0x17, 0x0a, 0x72, 0xd4, 0x1e, 0xb5, 0x6c, 0x3e, 0x4f, 0xf7, 0x5a, 0x58, 0xc6, 0x53, 0x86]

/-- Digest of `parent of the last two pair nodes` in the eight-leaf scenario. -/
def nodeD4567 : List Nat := [0x29, 0x59, 0x0a, 0x14, 0xc1, 0xb0, 0x93, 0x84, 0xb9, 0x4a, 0x2c, 0x0e, 0x94, 0xbf, 0x82, 0x1c, 0xa7, 0x5b, 0x62, 0xea, 0xce, 0xbc, 0x47, 0x89, 0x33, 0x97, 0xca, 0x88, 0xe3, 0xbb, 0xcb, 0xd7]

/-- Digest of `Merkle root of the eight leaves (fingerprint `b151...`)` in the eight-leaf scenario. -/
def rootD8 : List Nat := [0xb1, 0x51, 0xa9, 0x56, 0x13, 0x9b, 0xb8, 0x21, 0xd4, 0xef, 0xfa, 0x34, 0xea, 0x95, 0xc1, 0x75, 0x60, 0xe0, 0x13, 0x5d, 0x1e, 0x46, 0x61, 0xfc, 0x23, 0xce, 0xdc, 0x3a, 0xf4, 0x9d, 0xac, 0x42]

/-- Collect the dereferenced root-slot hashes of rows `[r, r + k)`,
ascending. -/
def collectAsc (p : Pollard) : Nat → Nat → List (List Nat)
  | _, 0 => []
  | r, k + 1 =>
    match p.roots.getD r none with
    | none => collectAsc p (r + 1) k
    | some id => (Pollard.nodeHash p id).deref :: collectAsc p (r + 1) k

/-- The pollard's occupied root hashes in the stump's order (highest row
first). -/
def stackOf (p : Pollard) : List (List Nat) := (collectAsc p 0 64).reverse

/-- Spec §8 property 2, executably: the stump's leaf count and root vector
agree with the pollard's leaf count and root-slot hashes row by row. -/
def stumpMatchesPollard (s : Stump) (p : Pollard) : Bool :=
  decide (s.leafs = p.leaves) && decide (s.roots = stackOf p)

/-- `stumpMatchesPollard` lifted over a fallible pollard result. -/
def exceptMatches (s : Stump) (ep : Except RtError Pollard) : Bool :=
  match ep with
  | Except.ok p => stumpMatchesPollard s p
  | Except.error _ => false

/-- Additions of remembered test leaves `h(k)`. -/
def addsOf (ks : List Nat) : List PollardAddition :=
  ks.map fun k => ⟨NodeHash.fromBytes (hashFromU8 k), true⟩

/-- A pollard holding the single leaf `h(0)`. -/
def pollardOne : Except RtError Pollard := Pollard.modify Pollard.new (addsOf [0]) []

/-- A pollard holding the two leaves `h(0), h(1)`. -/
def pollardTwo : Except RtError Pollard := Pollard.modify Pollard.new (addsOf [0, 1]) []

/-- A pollard holding the fifteen leaves `h(0) .. h(14)` (all remembered). -/
def pollardFifteen : Except RtError Pollard :=
  Pollard.modify Pollard.new (addsOf [0, 1, 2, 3, 4, 5, 6, 7, 8, 9, 10, 11, 12, 13, 14]) []

/-- `p.delete_single(p.grab_position(pos).unwrap().0)` — the deletion entry
point the repository's own tests use. -/
def deleteAt (ep : Except RtError Pollard) (pos : Nat) : Except RtError Pollard :=
  ep.bind fun p => (Pollard.grab_position p pos).bind fun r =>
    match r with
    | some nd => Pollard.delete_single p nd.1
    | none => Except.error (RtError.panicErr "unwrap on None: grab_position")

/-- The hash sitting in root slot `row`, if the pollard was built. -/
def rootHashAt (ep : Except RtError Pollard) (row : Nat) : Except RtError (Option NodeHash) :=
  ep.map fun p => (p.roots.getD row none).map (Pollard.nodeHash p)

/-- The leaf counter, if the pollard was built. -/
def leavesOf (ep : Except RtError Pollard) : Except RtError Nat := ep.map Pollard.leaves

/-- `Pollard::prove` on a fallibly built pollard. -/
def proveAt (ep : Except RtError Pollard) (targets : List Nat) :
    Except RtError (List (List NodeHash)) :=
  ep.bind fun p => Pollard.prove p targets

/-- `Pollard::modify` on a fallibly built pollard. -/
def modifyAt (ep : Except RtError Pollard) (adds : List PollardAddition)
    (dels : List Nat) : Except RtError Pollard :=
  ep.bind fun p => Pollard.modify p adds dels

/-- `Pollard::undo` on a fallibly built pollard. -/
def undoAt (ep : Except RtError Pollard) (u : UndoData) : Except RtError Pollard :=
  ep.bind fun p => Pollard.undo p u

/-- The shape invariant of a pollard reachable by pure additions: 64 root
slots, occupancy matching the bits of `leaves`, ids in range with real
(`Some`-tagged) hashes. -/
structure PollardInv (p : Pollard) : Prop where
  len_eq : p.roots.length = 64
  occ : ∀ r, r < 64 → (((p.leaves >>> r) &&& 1 = 1) ↔ (p.roots.getD r none).isSome)
  goods : ∀ i r, p.roots.getD r none = some i →
    i < p.arena.length ∧ (Pollard.nodeHash p i).ty = NodeHashTy.Some

/-- Precondition of the `add_single` carry loop at row `h` carrying node
`nid`: 64 root slots, occupancy matching the bits of `leaves` from row `h`
up, well-formed slot ids with `Some`-tagged (real) hashes, a well-formed
carried node, and a clear bit of `leaves` below 64 to exit on. -/
structure AddLoopPre (p : Pollard) (h nid : Nat) : Prop where
  len_eq : p.roots.length = 64
  occ : ∀ r, h ≤ r → r < 64 → (((p.leaves >>> r) &&& 1 = 1) ↔ (p.roots.getD r none).isSome)
  goods : ∀ i r, p.roots.getD r none = some i →
    i < p.arena.length ∧ (Pollard.nodeHash p i).ty = NodeHashTy.Some
  nid_lt : nid < p.arena.length
  nid_ty : (Pollard.nodeHash p nid).ty = NodeHashTy.Some
  exit_exists : ∃ r, h ≤ r ∧ r < 64 ∧ ¬ (p.leaves >>> r) &&& 1 = 1

/-- Postcondition of the `add_single` carry loop: where it stopped, what it
cleared and preserved, and that the stump's carry loop computes the
matching root stack and carried hash. -/
structure AddLoopPost (fuel : Nat) (p : Pollard) (h nid : Nat)
    (p2 : Pollard) (row nid2 : Nat) : Prop where
  hrow_ge : h ≤ row
  hrow_lt : row < 64
  bit_clear : (p.leaves >>> row) &&& 1 = 0
  bits_set : ∀ r, h ≤ r → r < row → (p.leaves >>> r) &&& 1 = 1
  leaves_eq : p2.leaves = p.leaves
  len_eq : p2.roots.length = 64
  cleared : ∀ r, h ≤ r → r < row → p2.roots.getD r none = none
  untouched : ∀ r, r < h ∨ row ≤ r → p2.roots.getD r none = p.roots.getD r none
  arena_mono : p.arena.length ≤ p2.arena.length
  hash_pres : ∀ i, i < p.arena.length → Pollard.nodeHash p2 i = Pollard.nodeHash p i
  nid2_lt : nid2 < p2.arena.length
  nid2_ty : (Pollard.nodeHash p2 nid2).ty = NodeHashTy.Some
  stump_eq : Stump.addLoop fuel p.leaves h ((collectAsc p h (64 - h)).reverse)
      ((Pollard.nodeHash p nid).deref) =
    ((collectAsc p2 row (64 - row)).reverse, (Pollard.nodeHash p2 nid2).deref)

/-- Fold `Stump.add_single` over a list adds one to `leafs` per element. -/
theorem stumpAddLeafs (adds : List (List Nat)) :
    ∀ s : Stump, (Stump.add s adds).leafs = s.leafs + adds.length := by
  induction adds with
  | nil => intro s; rfl
  | cons a rest ih =>
    intro s
    have h := ih (Stump.add_single s a)
    simp only [Stump.add, List.foldl] at h ⊢
    rw [h]
    simp [Stump.add_single]
    omega

/-! ## Machinery: add-only Stump-Pollard correspondence -/

theorem bitOne_iff (n r : Nat) : ((n >>> r) &&& 1 = 1) ↔ n.testBit r = true := by
  rw [Nat.and_one_is_mod, Nat.shiftRight_eq_div_pow, Nat.testBit_to_div_mod]
  simp

theorem bitZero_iff (n r : Nat) : ¬((n >>> r) &&& 1 = 1) ↔ n.testBit r = false := by
  rw [Nat.and_one_is_mod, Nat.shiftRight_eq_div_pow, Nat.testBit_to_div_mod]
  simp

/-- After a carry: incrementing a number whose bits below `row` are all set
and whose bit `row` is clear, clears the low bits, sets bit `row`, and
leaves the higher bits alone. -/
theorem carry_bits (n row : Nat)
    (hlow : ∀ r, r < row → n.testBit r = true) (hrow : n.testBit row = false) :
    (∀ r, r < row → (n + 1).testBit r = false) ∧
    (n + 1).testBit row = true ∧
    (∀ r, row < r → (n + 1).testBit r = n.testBit r) := by
  have hmod : n % 2 ^ (row + 1) = 2 ^ row - 1 := by
    apply Nat.eq_of_testBit_eq
    intro i
    rw [Nat.testBit_mod_two_pow, Nat.testBit_two_pow_sub_one]
    by_cases hi : i < row
    · simp [hi, hlow i hi, Nat.lt_succ_of_lt hi]
    · by_cases hi2 : i = row
      · subst hi2
        simp [hrow, Nat.lt_irrefl]
      · have h3 : ¬ i < row + 1 := by omega
        simp [h3, hi]
  have hone : 1 ≤ 2 ^ row := Nat.one_le_two_pow
  have hdm := Nat.div_add_mod n (2 ^ (row + 1))
  have hsucc : n + 1 = 2 ^ (row + 1) * (n / 2 ^ (row + 1)) + 2 ^ row := by omega
  have hn : n = 2 ^ (row + 1) * (n / 2 ^ (row + 1)) + (2 ^ row - 1) := by omega
  have hblt : 2 ^ row < 2 ^ (row + 1) := Nat.pow_lt_pow_succ (by norm_num)
  have hblt2 : 2 ^ row - 1 < 2 ^ (row + 1) := by omega
  refine ⟨?_, ?_, ?_⟩
  · intro r hr
    rw [hsucc, Nat.testBit_mul_pow_two_add _ hblt r, if_pos (by omega),
      Nat.testBit_two_pow_of_ne (by omega)]
  · rw [hsucc, Nat.testBit_mul_pow_two_add _ hblt row, if_pos (by omega),
      Nat.testBit_two_pow_self]
  · intro r hr
    rw [hsucc, Nat.testBit_mul_pow_two_add _ hblt r, if_neg (by omega)]
    conv_rhs => rw [hn]
    rw [Nat.testBit_mul_pow_two_add _ hblt2 r, if_neg (by omega)]

/-- A `u64` strictly below `2^64 - 1` has a clear bit below 64. -/
theorem exists_clear_bit (n : Nat) (h : n < 2 ^ 64 - 1) :
    ∃ r, r < 64 ∧ n.testBit r = false := by
  by_contra h2
  push_neg at h2
  have hall : ∀ r, r < 64 → n.testBit r = true := by
    intro r hr
    cases hb : n.testBit r with
    | false => exact absurd hb (h2 r hr)
    | true => rfl
  have hmod : n % 2 ^ 64 = 2 ^ 64 - 1 := by
    apply Nat.eq_of_testBit_eq
    intro i
    rw [Nat.testBit_mod_two_pow, Nat.testBit_two_pow_sub_one]
    by_cases hi : i < 64
    · simp [hi, hall i hi]
    · simp [hi]
  have := Nat.mod_le n (2 ^ 64)
  omega

/-- Setting an arena entry to a node with the same hash preserves every
node's hash view. -/
theorem getD_set_hash (l : List PNode) (i j : Nat) (v : PNode)
    (hv : v.hash = (l.getD i PNode.defaultNode).hash) :
    ((l.set i v).getD j PNode.defaultNode).hash = (l.getD j PNode.defaultNode).hash := by
  by_cases hij : i = j
  · subst hij
    by_cases hl : i < l.length
    · rw [List.getD_eq_getElem?_getD, List.getElem?_set_self hl]
      rw [List.getD_eq_getElem?_getD] at hv
      simpa using hv
    · rw [List.set_eq_of_length_le (Nat.le_of_not_lt hl)]
  · rw [List.getD_eq_getElem?_getD, List.getElem?_set_ne hij, ← List.getD_eq_getElem?_getD]

theorem nodeHash_setAunt (p : Pollard) (i : Nat) (a : Option Nat) (j : Nat) :
    Pollard.nodeHash (Pollard.setAunt p i a) j = Pollard.nodeHash p j :=
  getD_set_hash p.arena i j _ rfl

theorem nodeHash_setNiece (p : Pollard) (i : Nat) (l r : Option Nat) (j : Nat) :
    Pollard.nodeHash (Pollard.setNiece p i l r) j = Pollard.nodeHash p j :=
  getD_set_hash p.arena i j _ rfl

theorem nodeHash_setLeftNiece (p : Pollard) (i : Nat) (l : Option Nat) (j : Nat) :
    Pollard.nodeHash (Pollard.setLeftNiece p i l) j = Pollard.nodeHash p j :=
  getD_set_hash p.arena i j _ rfl

theorem nodeHash_setRightNiece (p : Pollard) (i : Nat) (r : Option Nat) (j : Nat) :
    Pollard.nodeHash (Pollard.setRightNiece p i r) j = Pollard.nodeHash p j :=
  getD_set_hash p.arena i j _ rfl

theorem nodeHash_swapNieces (p : Pollard) (a b j : Nat) :
    Pollard.nodeHash (Pollard.swapNieces p a b) j = Pollard.nodeHash p j := by
  unfold Pollard.swapNieces
  rw [nodeHash_setNiece, nodeHash_setNiece]

theorem nodeHash_setAuntIfSome (p : Pollard) (o : Option Nat) (a j : Nat) :
    Pollard.nodeHash (Pollard.setAuntIfSome p o a) j = Pollard.nodeHash p j := by
  cases o with
  | none => rfl
  | some n => exact nodeHash_setAunt p n (some a) j

theorem nodeHash_rewire (p : Pollard) (i j : Nat) :
    Pollard.nodeHash (Pollard.rewireNieceAunts p i) j = Pollard.nodeHash p j := by
  unfold Pollard.rewireNieceAunts
  rw [nodeHash_setAuntIfSome, nodeHash_setAuntIfSome]

theorem nodeHash_alloc_lt (p : Pollard) (n : PNode) (j : Nat) (h : j < p.arena.length) :
    Pollard.nodeHash (Pollard.alloc p n).1 j = Pollard.nodeHash p j := by
  unfold Pollard.alloc Pollard.nodeHash Pollard.node
  simp only [List.getD_eq_getElem?_getD, List.getElem?_append, if_pos h]

theorem nodeHash_alloc_self (p : Pollard) (n : PNode) :
    Pollard.nodeHash (Pollard.alloc p n).1 (Pollard.alloc p n).2 = n.hash := by
  unfold Pollard.alloc Pollard.nodeHash Pollard.node
  simp [List.getD_eq_getElem?_getD, List.getElem?_concat_length]

theorem roots_setAuntIfSome (p : Pollard) (o : Option Nat) (a : Nat) :
    (Pollard.setAuntIfSome p o a).roots = p.roots := by
  cases o <;> rfl

theorem leaves_setAuntIfSome (p : Pollard) (o : Option Nat) (a : Nat) :
    (Pollard.setAuntIfSome p o a).leaves = p.leaves := by
  cases o <;> rfl

theorem arenaLen_setAuntIfSome (p : Pollard) (o : Option Nat) (a : Nat) :
    (Pollard.setAuntIfSome p o a).arena.length = p.arena.length := by
  cases o with
  | none => rfl
  | some n => exact List.length_set ..

theorem roots_rewire (p : Pollard) (i : Nat) :
    (Pollard.rewireNieceAunts p i).roots = p.roots := by
  unfold Pollard.rewireNieceAunts
  rw [roots_setAuntIfSome, roots_setAuntIfSome]

theorem leaves_rewire (p : Pollard) (i : Nat) :
    (Pollard.rewireNieceAunts p i).leaves = p.leaves := by
  unfold Pollard.rewireNieceAunts
  rw [leaves_setAuntIfSome, leaves_setAuntIfSome]

theorem arenaLen_rewire (p : Pollard) (i : Nat) :
    (Pollard.rewireNieceAunts p i).arena.length = p.arena.length := by
  unfold Pollard.rewireNieceAunts
  rw [arenaLen_setAuntIfSome, arenaLen_setAuntIfSome]

theorem mergeStep_roots (p : Pollard) (row nid oldRoot : Nat) :
    (Pollard.mergeStep p row nid oldRoot).1.roots = p.roots.set row none := by
  unfold Pollard.mergeStep
  dsimp only
  split <;> simp [roots_rewire, Pollard.setNiece, Pollard.setAunt, Pollard.swapNieces,
    Pollard.alloc]

theorem mergeStep_leaves (p : Pollard) (row nid oldRoot : Nat) :
    (Pollard.mergeStep p row nid oldRoot).1.leaves = p.leaves := by
  unfold Pollard.mergeStep
  dsimp only
  split <;> simp [leaves_rewire, Pollard.setNiece, Pollard.setAunt, Pollard.swapNieces,
    Pollard.alloc]

theorem mergeStep_arenaLen (p : Pollard) (row nid oldRoot : Nat) :
    (Pollard.mergeStep p row nid oldRoot).1.arena.length = p.arena.length + 1 := by
  unfold Pollard.mergeStep
  dsimp only
  split <;> simp [arenaLen_rewire, Pollard.setNiece, Pollard.setAunt, Pollard.swapNieces,
    Pollard.alloc, List.length_set]

theorem mergeStep_newRoot (p : Pollard) (row nid oldRoot : Nat) :
    (Pollard.mergeStep p row nid oldRoot).2 = p.arena.length := by
  unfold Pollard.mergeStep
  rfl

theorem mergeStep_hash_pres (p : Pollard) (row nid oldRoot i : Nat)
    (hi : i < p.arena.length) :
    Pollard.nodeHash (Pollard.mergeStep p row nid oldRoot).1 i = Pollard.nodeHash p i := by
  unfold Pollard.mergeStep
  dsimp only
  split <;>
    simp only [nodeHash_setNiece, nodeHash_setAunt, nodeHash_rewire, nodeHash_swapNieces] <;>
  · show Pollard.nodeHash (Pollard.alloc _ _).1 i = _
    rw [nodeHash_alloc_lt _ _ _ (by simpa using hi)]
    rfl

theorem mergeStep_hash_new (p : Pollard) (row nid oldRoot : Nat) :
    Pollard.nodeHash (Pollard.mergeStep p row nid oldRoot).1 p.arena.length =
      NodeHash.parent_hash (Pollard.nodeHash p oldRoot) (Pollard.nodeHash p nid) := by
  unfold Pollard.mergeStep
  dsimp only
  split <;>
    simp only [nodeHash_setNiece, nodeHash_setAunt, nodeHash_rewire, nodeHash_swapNieces] <;>
  · show Pollard.nodeHash (Pollard.alloc _ _).1 p.arena.length = _
    rw [show p.arena.length = (Pollard.alloc { p with roots := p.roots.set row none }
      ⟨_, _, none, none, none⟩).2 from rfl]
    rw [nodeHash_alloc_self]
    rfl

theorem get_eq_getD (l : List (Option Nat)) (i : Nat) (h : i < l.length) :
    l.get ⟨i, h⟩ = l.getD i none := by
  rw [List.getD_eq_getElem?_getD, List.getElem?_eq_getElem h]
  rfl

theorem is_empty_false_of_ty (h : NodeHash) (ht : h.ty = NodeHashTy.Some) :
    h.is_empty = false := by
  unfold NodeHash.is_empty
  rw [ht]

theorem andOne_eq_zero (x : Nat) (h : ¬ x &&& 1 = 1) : x &&& 1 = 0 := by
  rw [Nat.and_one_is_mod] at *
  omega

theorem collectAsc_congr (p q : Pollard) :
    ∀ (k r : Nat),
    (∀ i, r ≤ i → i < r + k → q.roots.getD i none = p.roots.getD i none ∧
      ∀ id, p.roots.getD i none = some id → Pollard.nodeHash q id = Pollard.nodeHash p id) →
    collectAsc q r k = collectAsc p r k := by
  intro k
  induction k with
  | zero => intro r _; rfl
  | succ k ih =>
    intro r hagree
    have h0 := hagree r (Nat.le_refl r) (by omega)
    have hrec := ih (r + 1) (fun i hi1 hi2 => hagree i (by omega) (by omega))
    show (match q.roots.getD r none with
      | none => collectAsc q (r + 1) k
      | some id => (Pollard.nodeHash q id).deref :: collectAsc q (r + 1) k) =
      (match p.roots.getD r none with
      | none => collectAsc p (r + 1) k
      | some id => (Pollard.nodeHash p id).deref :: collectAsc p (r + 1) k)
    rw [h0.1]
    cases hq : p.roots.getD r none with
    | none => simpa using hrec
    | some id => simp [hrec, h0.2 id hq]

theorem collectAsc_skip (p : Pollard) (r k : Nat) (h : p.roots.getD r none = none) :
    collectAsc p r (k + 1) = collectAsc p (r + 1) k := by
  show (match p.roots.getD r none with
    | none => collectAsc p (r + 1) k
    | some id => (Pollard.nodeHash p id).deref :: collectAsc p (r + 1) k) = _
  rw [h]

theorem collectAsc_cons (p : Pollard) (r k id : Nat)
    (h : p.roots.getD r none = some id) :
    collectAsc p r (k + 1) = (Pollard.nodeHash p id).deref :: collectAsc p (r + 1) k := by
  show (match p.roots.getD r none with
    | none => collectAsc p (r + 1) k
    | some id => (Pollard.nodeHash p id).deref :: collectAsc p (r + 1) k) = _
  rw [h]

theorem collectAsc_skip_range (p : Pollard) :
    ∀ (j r k : Nat), (∀ i, r ≤ i → i < r + j → p.roots.getD i none = none) → j ≤ k →
    collectAsc p r k = collectAsc p (r + j) (k - j) := by
  intro j
  induction j with
  | zero => intro r k _ _; rfl
  | succ j ih =>
    intro r k hnone hk
    cases k with
    | zero => omega
    | succ k2 =>
      rw [collectAsc_skip p r k2 (hnone r (Nat.le_refl r) (by omega))]
      have := ih (r + 1) k2 (fun i hi1 hi2 => hnone i (by omega) (by omega)) (by omega)
      rw [this]
      congr 1 <;> omega

/-- `(parent_hash x y).deref` is the stump-side `types_parent_hash` of the
operands' bytes. -/
theorem deref_parent_hash (x y : NodeHash) :
    (NodeHash.parent_hash x y).deref = types_parent_hash x.deref y.deref := rfl

/-- The carry loops of `Stump::add_single` and `Pollard::add_single` run in
lockstep: from matching states the pollard loop succeeds and both compute
the same root stack and carried hash. -/
theorem addLoop_corr :
    ∀ (fuel : Nat) (p : Pollard) (h nid : Nat),
    AddLoopPre p h nid → 64 ≤ h + fuel →
    ∃ p2 row nid2, Pollard.addLoop fuel p h nid = Except.ok (p2, row, nid2) ∧
      AddLoopPost fuel p h nid p2 row nid2 := by
  intro fuel
  induction fuel with
  | zero =>
    intro p h nid pre hfuel
    obtain ⟨r, hr1, hr2, _⟩ := pre.exit_exists
    omega
  | succ fuel ih =>
    intro p h nid pre hfuel
    obtain ⟨r0, hr01, hr02, hr03⟩ := pre.exit_exists
    by_cases hbit : (p.leaves >>> h) &&& 1 = 1
    · have hneq : h ≠ r0 := by
        intro he
        exact hr03 (he ▸ hbit)
      have h64 : h < 64 := by omega
      have hlen := pre.len_eq
      have hlt : h < p.roots.length := by omega
      have hsome : (p.roots.getD h none).isSome := (pre.occ h (Nat.le_refl h) h64).mp hbit
      obtain ⟨oldRoot, hold⟩ := Option.isSome_iff_exists.mp hsome
      have hgood := pre.goods oldRoot h hold
      have hget : p.roots.get ⟨h, hlt⟩ = some oldRoot := by
        rw [get_eq_getD]
        exact hold
      have hnotempty : (Pollard.nodeHash p oldRoot).is_empty = false :=
        is_empty_false_of_ty _ hgood.2
      have heval : Pollard.addLoop (fuel + 1) p h nid =
          Pollard.addLoop fuel (Pollard.mergeStep p h nid oldRoot).1 (h + 1)
            (Pollard.mergeStep p h nid oldRoot).2 := by
        conv_lhs => rw [Pollard.addLoop]
        rw [if_pos hbit, dif_pos hlt]
        simp only [hget, hnotempty]
        simp
      have hroots_ms : (Pollard.mergeStep p h nid oldRoot).1.roots = p.roots.set h none :=
        mergeStep_roots p h nid oldRoot
      have hleaves_ms : (Pollard.mergeStep p h nid oldRoot).1.leaves = p.leaves :=
        mergeStep_leaves p h nid oldRoot
      have hlenA_ms : (Pollard.mergeStep p h nid oldRoot).1.arena.length =
          p.arena.length + 1 := mergeStep_arenaLen p h nid oldRoot
      have hnr : (Pollard.mergeStep p h nid oldRoot).2 = p.arena.length :=
        mergeStep_newRoot p h nid oldRoot
      have hpres : ∀ i, i < p.arena.length →
          Pollard.nodeHash (Pollard.mergeStep p h nid oldRoot).1 i = Pollard.nodeHash p i :=
        fun i hi => mergeStep_hash_pres p h nid oldRoot i hi
      have hnew : Pollard.nodeHash (Pollard.mergeStep p h nid oldRoot).1
            (Pollard.mergeStep p h nid oldRoot).2 =
          NodeHash.parent_hash (Pollard.nodeHash p oldRoot) (Pollard.nodeHash p nid) := by
        rw [hnr]
        exact mergeStep_hash_new p h nid oldRoot
      have hslot_ms : ∀ r, r ≠ h →
          (Pollard.mergeStep p h nid oldRoot).1.roots.getD r none = p.roots.getD r none := by
        intro r hr
        rw [hroots_ms, List.getD_eq_getElem?_getD,
          List.getElem?_set_ne (fun he => hr he.symm), ← List.getD_eq_getElem?_getD]
      have hslot_h : (Pollard.mergeStep p h nid oldRoot).1.roots.getD h none = none := by
        rw [hroots_ms, List.getD_eq_getElem?_getD, List.getElem?_set_self hlt]
        rfl
      have pre2 : AddLoopPre (Pollard.mergeStep p h nid oldRoot).1 (h + 1)
          (Pollard.mergeStep p h nid oldRoot).2 := by
        refine ⟨?_, ?_, ?_, ?_, ?_, ?_⟩
        · rw [hroots_ms, List.length_set]
          exact hlen
        · intro r hr1 hr2
          rw [hleaves_ms, hslot_ms r (by omega)]
          exact pre.occ r (by omega) hr2
        · intro i r hsl
          by_cases hrh : r = h
          · subst hrh
            rw [hslot_h] at hsl
            exact absurd hsl (by simp)
          · rw [hslot_ms r hrh] at hsl
            have hg := pre.goods i r hsl
            refine ⟨by omega, ?_⟩
            rw [hpres i hg.1]
            exact hg.2
        · rw [hnr, hlenA_ms]
          omega
        · rw [hnew]
          rfl
        · exact ⟨r0, by omega, hr02, by rw [hleaves_ms]; exact hr03⟩
      obtain ⟨p2, row, nid2, hrun, post⟩ := ih (Pollard.mergeStep p h nid oldRoot).1 (h + 1)
        (Pollard.mergeStep p h nid oldRoot).2 pre2 (by omega)
      refine ⟨p2, row, nid2, by rw [heval]; exact hrun, ?_⟩
      have hk : 64 - h = (63 - h) + 1 := by omega
      have hcol : collectAsc p h (64 - h) =
          (Pollard.nodeHash p oldRoot).deref :: collectAsc p (h + 1) (63 - h) := by
        rw [hk]
        exact collectAsc_cons p h (63 - h) oldRoot hold
      have hlast : ((collectAsc p h (64 - h)).reverse).getLast? =
          some ((Pollard.nodeHash p oldRoot).deref) := by
        rw [List.getLast?_reverse, hcol]
        rfl
      have hdrop : ((collectAsc p h (64 - h)).reverse).dropLast =
          (collectAsc p (h + 1) (63 - h)).reverse := by
        rw [List.dropLast_reverse, hcol]
        rfl
      have hcolms : collectAsc (Pollard.mergeStep p h nid oldRoot).1 (h + 1) (63 - h) =
          collectAsc p (h + 1) (63 - h) := by
        apply collectAsc_congr
        intro i hi1 _
        refine ⟨hslot_ms i (by omega), fun id hid => ?_⟩
        exact hpres id (pre.goods id i hid).1
      have hstump : Stump.addLoop (fuel + 1) p.leaves h
            ((collectAsc p h (64 - h)).reverse) ((Pollard.nodeHash p nid).deref) =
          Stump.addLoop fuel p.leaves (h + 1) ((collectAsc p (h + 1) (63 - h)).reverse)
            (types_parent_hash ((Pollard.nodeHash p oldRoot).deref)
              ((Pollard.nodeHash p nid).deref)) := by
        conv_lhs => rw [Stump.addLoop]
        rw [if_pos hbit]
        simp only [hlast, hdrop]
      have hstump2 := post.stump_eq
      rw [hleaves_ms, hnew, deref_parent_hash] at hstump2
      have h63 : 64 - (h + 1) = 63 - h := by omega
      rw [h63, hcolms] at hstump2
      exact {
        hrow_ge := by have := post.hrow_ge; omega
        hrow_lt := post.hrow_lt
        bit_clear := by have := post.bit_clear; rwa [hleaves_ms] at this
        bits_set := by
          intro r hr1 hr2
          by_cases hrh : r = h
          · subst hrh
            exact hbit
          · have := post.bits_set r (by omega) hr2
            rwa [hleaves_ms] at this
        leaves_eq := post.leaves_eq.trans hleaves_ms
        len_eq := post.len_eq
        cleared := by
          intro r hr1 hr2
          by_cases hrh : r = h
          · subst hrh
            rw [post.untouched r (Or.inl (by omega))]
            exact hslot_h
          · exact post.cleared r (by omega) hr2
        untouched := by
          intro r hr
          have hne : r ≠ h := by
            rcases hr with hr | hr
            · omega
            · have := post.hrow_ge
              omega
          have hcase : r < h + 1 ∨ row ≤ r := by
            rcases hr with hr | hr
            · exact Or.inl (by omega)
            · exact Or.inr hr
          rw [post.untouched r hcase]
          exact hslot_ms r hne
        arena_mono := by have := post.arena_mono; omega
        hash_pres := by
          intro i hi
          rw [post.hash_pres i (by omega)]
          exact hpres i hi
        nid2_lt := post.nid2_lt
        nid2_ty := post.nid2_ty
        stump_eq := hstump.trans hstump2
      }
    · have h64 : h < 64 := by omega
      refine ⟨p, h, nid, ?_, ?_⟩
      · conv_lhs => rw [Pollard.addLoop]
        rw [if_neg hbit]
      · exact {
          hrow_ge := Nat.le_refl h
          hrow_lt := h64
          bit_clear := andOne_eq_zero _ hbit
          bits_set := by intro r hr1 hr2; omega
          leaves_eq := rfl
          len_eq := pre.len_eq
          cleared := by intro r hr1 hr2; omega
          untouched := fun r _ => rfl
          arena_mono := Nat.le_refl _
          hash_pres := fun i _ => rfl
          nid2_lt := pre.nid_lt
          nid2_ty := pre.nid_ty
          stump_eq := by
            conv_lhs => rw [Stump.addLoop]
            rw [if_neg hbit]
        }

theorem arenaLen_alloc (p : Pollard) (n : PNode) :
    (Pollard.alloc p n).1.arena.length = p.arena.length + 1 := by
  simp [Pollard.alloc]

theorem andOne_not_one_of_zero (x : Nat) (h : x &&& 1 = 0) : ¬ x &&& 1 = 1 := by
  omega

theorem deref_fromBytes (v : List Nat) : (NodeHash.fromBytes v).deref = v := rfl

/-- One `add_single` on each side preserves the stump-pollard relation. -/
theorem add_single_corr (p : Pollard) (s : Stump) (b : List Nat) (rem : Bool)
    (inv : PollardInv p) (hleafs : s.leafs = p.leaves) (hroots : s.roots = stackOf p)
    (hsmall : p.leaves < 2 ^ 64 - 1) :
    ∃ p2, Pollard.add_single p ⟨NodeHash.fromBytes b, rem⟩ = Except.ok p2 ∧
      PollardInv p2 ∧ p2.leaves = p.leaves + 1 ∧
      (Stump.add_single s b).leafs = p2.leaves ∧
      (Stump.add_single s b).roots = stackOf p2 := by
  obtain ⟨rc, hrc1, hrc2⟩ := exists_clear_bit p.leaves hsmall
  have hlenA0 : (Pollard.alloc p ⟨rem, NodeHash.fromBytes b, none, none, none⟩).1.arena.length =
      p.arena.length + 1 := arenaLen_alloc ..
  have hnew0 : Pollard.nodeHash (Pollard.alloc p ⟨rem, NodeHash.fromBytes b, none, none, none⟩).1
      (Pollard.alloc p ⟨rem, NodeHash.fromBytes b, none, none, none⟩).2 =
      NodeHash.fromBytes b := nodeHash_alloc_self ..
  have pre : AddLoopPre (Pollard.alloc p ⟨rem, NodeHash.fromBytes b, none, none, none⟩).1 0
      (Pollard.alloc p ⟨rem, NodeHash.fromBytes b, none, none, none⟩).2 := by
    refine ⟨inv.len_eq, ?_, ?_, ?_, ?_, ?_⟩
    · intro r _ hr2
      exact inv.occ r hr2
    · intro i r hsl
      have hg := inv.goods i r hsl
      refine ⟨by rw [hlenA0]; omega, ?_⟩
      rw [nodeHash_alloc_lt p _ i hg.1]
      exact hg.2
    · rw [hlenA0]
      show p.arena.length < p.arena.length + 1
      omega
    · rw [hnew0]
      rfl
    · exact ⟨rc, Nat.zero_le rc, hrc1, (bitZero_iff p.leaves rc).mpr hrc2⟩
  obtain ⟨p2, row, nid2, hrun, post⟩ := addLoop_corr 65
    (Pollard.alloc p ⟨rem, NodeHash.fromBytes b, none, none, none⟩).1 0
    (Pollard.alloc p ⟨rem, NodeHash.fromBytes b, none, none, none⟩).2 pre (by omega)
  have hrowlen : row < p2.roots.length := by
    rw [post.len_eq]
    exact post.hrow_lt
  have heval : Pollard.add_single p ⟨NodeHash.fromBytes b, rem⟩ =
      Except.ok { p2 with
        roots := p2.roots.set row (some nid2), leaves := p2.leaves + 1 } := by
    unfold Pollard.add_single
    dsimp only
    rw [hrun]
    show (if row < p2.roots.length then _ else _) = _
    rw [if_pos hrowlen]
  have hlow : ∀ r, r < row → p.leaves.testBit r = true := fun r hr =>
    (bitOne_iff p.leaves r).mp (post.bits_set r (Nat.zero_le r) hr)
  have hrowbit : p.leaves.testBit row = false :=
    (bitZero_iff p.leaves row).mp (andOne_not_one_of_zero _ post.bit_clear)
  obtain ⟨hc1, hc2, hc3⟩ := carry_bits p.leaves row hlow hrowbit
  have hleaves2 : p2.leaves = p.leaves := post.leaves_eq
  have hslotF : ∀ r, r ≠ row →
      (p2.roots.set row (some nid2)).getD r none = p2.roots.getD r none := by
    intro r hr
    rw [List.getD_eq_getElem?_getD, List.getElem?_set_ne (fun he => hr he.symm),
      ← List.getD_eq_getElem?_getD]
  have hslotR : (p2.roots.set row (some nid2)).getD row none = some nid2 := by
    rw [List.getD_eq_getElem?_getD, List.getElem?_set_self hrowlen]
    rfl
  refine ⟨_, heval, ⟨?_, ?_, ?_⟩, ?_, ?_, ?_⟩
  · show (p2.roots.set row (some nid2)).length = 64
    rw [List.length_set]
    exact post.len_eq
  · intro r hr64
    show (p2.leaves + 1) >>> r &&& 1 = 1 ↔
      ((p2.roots.set row (some nid2)).getD r none).isSome = true
    rw [hleaves2]
    by_cases hrr : r = row
    · subst hrr
      rw [hslotR]
      simp only [Option.isSome_some]
      rw [bitOne_iff]
      simp [hc2]
    · rw [hslotF r hrr]
      rcases Nat.lt_or_ge r row with hlt2 | hge
      · rw [post.cleared r (Nat.zero_le r) hlt2]
        rw [bitOne_iff, hc1 r hlt2]
        simp
      · have hgt : row < r := by omega
        rw [post.untouched r (Or.inr (by omega)), bitOne_iff, hc3 r hgt, ← bitOne_iff]
        exact inv.occ r hr64
  · intro i r hsl
    have hsl2 : (p2.roots.set row (some nid2)).getD r none = some i := hsl
    show i < p2.arena.length ∧ (Pollard.nodeHash p2 i).ty = NodeHashTy.Some
    by_cases hrr : r = row
    · subst hrr
      rw [hslotR] at hsl2
      obtain rfl := Option.some.inj hsl2
      exact ⟨post.nid2_lt, post.nid2_ty⟩
    · rw [hslotF r hrr] at hsl2
      rcases Nat.lt_or_ge r row with hlt2 | hge
      · rw [post.cleared r (Nat.zero_le r) hlt2] at hsl2
        exact absurd hsl2 (by simp)
      · have hun := post.untouched r (Or.inr hge)
        rw [hun] at hsl2
        have hsl3 : p.roots.getD r none = some i := hsl2
        have hg := inv.goods i r hsl3
        have hi2 : i < (Pollard.alloc p ⟨rem, NodeHash.fromBytes b, none, none,
            none⟩).1.arena.length := by
          rw [hlenA0]
          omega
        have hmono := post.arena_mono
        rw [hlenA0] at hmono
        refine ⟨by omega, ?_⟩
        rw [post.hash_pres i hi2, nodeHash_alloc_lt p _ i hg.1]
        exact hg.2
  · show p2.leaves + 1 = p.leaves + 1
    rw [hleaves2]
  · show s.leafs + 1 = p2.leaves + 1
    rw [hleafs, hleaves2]
  · have hstump := post.stump_eq
    have hcol0 : collectAsc
        (Pollard.alloc p ⟨rem, NodeHash.fromBytes b, none, none, none⟩).1 0 64 =
        collectAsc p 0 64 := by
      apply collectAsc_congr
      intro i _ _
      refine ⟨rfl, fun id hid => nodeHash_alloc_lt p _ id (inv.goods id i hid).1⟩
    rw [hnew0, deref_fromBytes] at hstump
    have hleaves0 : (Pollard.alloc p ⟨rem, NodeHash.fromBytes b, none, none,
        none⟩).1.leaves = p.leaves := rfl
    rw [hleaves0] at hstump
    rw [show (64 : Nat) - 0 = 64 from rfl, hcol0] at hstump
    show (Stump.addLoop 65 s.leafs 0 s.roots b).1 ++
        [(Stump.addLoop 65 s.leafs 0 s.roots b).2] =
      stackOf { p2 with
        roots := p2.roots.set row (some nid2), leaves := p2.leaves + 1 }
    rw [hleafs, hroots]
    unfold stackOf
    rw [hstump]
    have hk : 64 - row = (63 - row) + 1 := by
      have := post.hrow_lt
      omega
    have hclearF : ∀ i, 0 ≤ i → i < 0 + row →
        ({ p2 with
          roots := p2.roots.set row (some nid2),
            leaves := p2.leaves + 1 } : Pollard).roots.getD i none = none := by
      intro i _ hi
      have hi2 : i < row := by omega
      show (p2.roots.set row (some nid2)).getD i none = none
      rw [hslotF i (by omega)]
      exact post.cleared i (Nat.zero_le i) hi2
    have hskipF : collectAsc { p2 with
          roots := p2.roots.set row (some nid2), leaves := p2.leaves + 1 } 0 64 =
        collectAsc { p2 with
          roots := p2.roots.set row (some nid2), leaves := p2.leaves + 1 } row (64 - row) := by
      have := collectAsc_skip_range { p2 with
        roots := p2.roots.set row (some nid2), leaves := p2.leaves + 1 } row 0 64
        hclearF (by omega)
      simpa using this
    have hconsF : collectAsc { p2 with
          roots := p2.roots.set row (some nid2), leaves := p2.leaves + 1 } row (64 - row) =
        (Pollard.nodeHash p2 nid2).deref ::
          collectAsc { p2 with
            roots := p2.roots.set row (some nid2), leaves := p2.leaves + 1 }
            (row + 1) (63 - row) := by
      rw [hk]
      exact collectAsc_cons _ row (63 - row) nid2 hslotR
    have hcongrF : collectAsc { p2 with
          roots := p2.roots.set row (some nid2), leaves := p2.leaves + 1 }
          (row + 1) (63 - row) =
        collectAsc p2 (row + 1) (63 - row) := by
      apply collectAsc_congr
      intro i hi1 _
      exact ⟨hslotF i (by omega), fun id _ => rfl⟩
    have hrowNone : p2.roots.getD row none = none := by
      have hun := post.untouched row (Or.inr (Nat.le_refl row))
      have hocc := inv.occ row post.hrow_lt
      have hbit0 : ¬ (p.leaves >>> row) &&& 1 = 1 :=
        andOne_not_one_of_zero _ post.bit_clear
      have hnot : ¬ (p.roots.getD row none).isSome = true := fun hs => hbit0 (hocc.mpr hs)
      rw [hun]
      show p.roots.getD row none = none
      exact Option.not_isSome_iff_eq_none.mp hnot
    have hskip2 : collectAsc p2 row (64 - row) = collectAsc p2 (row + 1) (63 - row) := by
      rw [hk]
      exact collectAsc_skip p2 row (63 - row) hrowNone
    rw [hskipF, hconsF, hcongrF, hskip2, List.reverse_cons]

theorem getD_replicate_none :
    ∀ (n r : Nat), (List.replicate n (none : Option Nat)).getD r none = none := by
  intro n
  induction n with
  | zero => intro r; rfl
  | succ n ih =>
    intro r
    cases r with
    | zero => rfl
    | succ r2 => simp only [List.replicate, List.getD_cons_succ]; exact ih r2

/-- `PollardInv` holds for the fresh pollard. -/
theorem pollardInv_new : PollardInv Pollard.new := by
  refine ⟨rfl, ?_, ?_⟩
  · intro r _
    show (0 >>> r) &&& 1 = 1 ↔ (Pollard.new.roots.getD r none).isSome = true
    rw [show Pollard.new.roots = List.replicate 64 none from rfl, getD_replicate_none]
    simp
  · intro i r hsl
    rw [show Pollard.new.roots = List.replicate 64 none from rfl, getD_replicate_none] at hsl
    exact absurd hsl (by simp)

/-- Folding `add_single` over both sides preserves the relation. -/
theorem addAll_corr (items : List (List Nat × Bool)) :
    ∀ (p : Pollard) (s : Stump), PollardInv p → s.leafs = p.leaves → s.roots = stackOf p →
    p.leaves + items.length < 2 ^ 64 →
    ∃ p2, Pollard.addAll p (items.map fun it => ⟨NodeHash.fromBytes it.1, it.2⟩) =
        Except.ok p2 ∧
      PollardInv p2 ∧ p2.leaves = p.leaves + items.length ∧
      (Stump.add s (items.map Prod.fst)).leafs = p2.leaves ∧
      (Stump.add s (items.map Prod.fst)).roots = stackOf p2 := by
  induction items with
  | nil =>
    intro p s inv h1 h2 _
    exact ⟨p, rfl, inv, by simp, by simp [Stump.add, h1], by simp [Stump.add, h2]⟩
  | cons it rest ih =>
    intro p s inv h1 h2 hlen
    have hsmall : p.leaves < 2 ^ 64 - 1 := by
      simp only [List.length_cons] at hlen
      omega
    obtain ⟨p2, hp2, inv2, hl2, hsl2, hsr2⟩ := add_single_corr p s it.1 it.2 inv h1 h2 hsmall
    obtain ⟨p3, hp3, inv3, hl3, hsl3, hsr3⟩ := ih p2 (Stump.add_single s it.1) inv2 hsl2 hsr2
      (by simp only [List.length_cons] at hlen; omega)
    refine ⟨p3, ?_, inv3, ?_, ?_, ?_⟩
    · show Pollard.addAll p (⟨NodeHash.fromBytes it.1, it.2⟩ ::
        rest.map fun it => ⟨NodeHash.fromBytes it.1, it.2⟩) = Except.ok p3
      show (Pollard.add_single p ⟨NodeHash.fromBytes it.1, it.2⟩).bind
        (fun p4 => Pollard.addAll p4 (rest.map fun it => ⟨NodeHash.fromBytes it.1, it.2⟩)) =
        Except.ok p3
      rw [hp2]
      show Pollard.addAll p2 (rest.map fun it => ⟨NodeHash.fromBytes it.1, it.2⟩) =
        Except.ok p3
      exact hp3
    · rw [hl3, hl2]
      simp only [List.length_cons]
      omega
    · show (Stump.add (Stump.add_single s it.1) (rest.map Prod.fst)).leafs = p3.leaves
      exact hsl3
    · show (Stump.add (Stump.add_single s it.1) (rest.map Prod.fst)).roots = stackOf p3
      exact hsr3

/-- C2 (amended): for every sequence of the *same additions only* (any
leaf bytes, any remember flags, no deletions) applied to a fresh stump and
a fresh pollard, the pollard build succeeds and the stump's leaf count and
root vector equal the pollard's leaf count and root-slot hashes at every
row (the stump stores them highest row first). -/
theorem claim_c2 (items : List (List Nat × Bool)) (hlen : items.length < 2 ^ 64) :
    ∃ p, Pollard.modify Pollard.new
        (items.map fun it => ⟨NodeHash.fromBytes it.1, it.2⟩) [] = Except.ok p ∧
      stumpMatchesPollard (Stump.modify Stump.new (items.map Prod.fst) []) p = true := by
  have hmod : ∀ adds, Pollard.modify Pollard.new adds [] = Pollard.addAll Pollard.new adds :=
    fun adds => rfl
  have hsmod : ∀ l, Stump.modify Stump.new l [] = Stump.add Stump.new l := fun l => rfl
  have hstack : Stump.new.roots = stackOf Pollard.new := by
    show ([] : List (List Nat)) = stackOf Pollard.new
    rfl
  obtain ⟨p, hp, _, _, hsl, hsr⟩ := addAll_corr items Pollard.new Stump.new pollardInv_new
    rfl hstack (by simp only [show Pollard.new.leaves = 0 from rfl]; omega)
  refine ⟨p, by rw [hmod]; exact hp, ?_⟩
  rw [hsmod]
  unfold stumpMatchesPollard
  rw [hsl, hsr]
  simp

/-- C2 witness: the amended agreement at one concrete addition. -/
theorem claim_c2_witness :
    ∃ p, Pollard.modify Pollard.new
        ([(List.replicate 32 0, true)].map fun it => ⟨NodeHash.fromBytes it.1, it.2⟩) [] =
        Except.ok p ∧
      stumpMatchesPollard
        (Stump.modify Stump.new ([(List.replicate 32 0, true)].map Prod.fst) []) p = true :=
  claim_c2 [(List.replicate 32 0, true)] (by decide)

/-- C7 (amended): `Pollard::modify` detwins and resolves the deletion
positions before mutating, skips positions that resolve to `None`, and
applies additions last — but it is *not* panic-free on deletions (see the
counterexample).  Pure additions from a fresh pollard never panic: the
modify succeeds and the leaf counter ends at the number of additions. -/
theorem claim_c7 (items : List (List Nat × Bool)) (hlen : items.length < 2 ^ 64) :
    ∃ p, Pollard.modify Pollard.new
        (items.map fun it => ⟨NodeHash.fromBytes it.1, it.2⟩) [] = Except.ok p ∧
      p.leaves = items.length := by
  have hmod : ∀ adds, Pollard.modify Pollard.new adds [] = Pollard.addAll Pollard.new adds :=
    fun adds => rfl
  have hstack : Stump.new.roots = stackOf Pollard.new := by
    show ([] : List (List Nat)) = stackOf Pollard.new
    rfl
  obtain ⟨p, hp, _, hleaves, _, _⟩ := addAll_corr items Pollard.new Stump.new pollardInv_new
    rfl hstack (by simp only [show Pollard.new.leaves = 0 from rfl]; omega)
  refine ⟨p, by rw [hmod]; exact hp, ?_⟩
  rw [hleaves]
  simp only [show Pollard.new.leaves = 0 from rfl, Nat.zero_add]

/-- C7 witness: one concrete pure-addition modify that returns `ok`. -/
theorem claim_c7_witness :
    ∃ p, Pollard.modify Pollard.new
        ([(List.replicate 32 1, false)].map fun it => ⟨NodeHash.fromBytes it.1, it.2⟩) [] =
        Except.ok p ∧
      p.leaves = ([(List.replicate 32 1, false)] : List (List Nat × Bool)).length :=
  claim_c7 [(List.replicate 32 1, false)] (by decide)

/-! ## Settled claims -/

/-- C1 (counterexample): on the code, `Stump::modify` succeeds and mutates the
stump even when the deletion list is non-empty and no proof could possibly
verify (there is no proof parameter at all): modifying a fresh stump with
one addition and one deletion hash yields `leafs = 1` — not an error with
the stump left unchanged, as the claim requires. -/
theorem claim_c1_counterexample :
    Stump.modify Stump.new [List.replicate 32 0] [List.replicate 32 1] =
      { leafs := 1, roots := [List.replicate 32 0] } ∧
    ({ leafs := 1, roots := [List.replicate 32 0] } : Stump) ≠ Stump.new :=
  ⟨rfl, by decide⟩

/-- C1 (amended): `Stump::modify(utxos, _stxos)` takes no proof, performs no
verification and no deletions, and returns no error or `UpdateData`; the
deletion argument is entirely ignored and only the additions are applied,
each increasing `leafs` by one. -/
theorem claim_c1 (s : Stump) (adds dels dels' : List (List Nat)) :
    Stump.modify s adds dels = Stump.modify s adds dels' ∧
    Stump.modify s adds dels = Stump.add s adds ∧
    (Stump.modify s adds dels).leafs = s.leafs + adds.length :=
  ⟨rfl, rfl, stumpAddLeafs adds s⟩

/-- The leaf digest `h(0)` evaluates to its literal bytes. -/
theorem hashLit0 : hashFromU8 0 = leafD0 := rfl

/-- The leaf digest `h(1)` evaluates to its literal bytes. -/
theorem hashLit1 : hashFromU8 1 = leafD1 := rfl

/-- The leaf digest `h(2)` evaluates to its literal bytes. -/
theorem hashLit2 : hashFromU8 2 = leafD2 := rfl

/-- The leaf digest `h(3)` evaluates to its literal bytes. -/
theorem hashLit3 : hashFromU8 3 = leafD3 := rfl

/-- The leaf digest `h(4)` evaluates to its literal bytes. -/
theorem hashLit4 : hashFromU8 4 = leafD4 := rfl

/-- The leaf digest `h(5)` evaluates to its literal bytes. -/
theorem hashLit5 : hashFromU8 5 = leafD5 := rfl

/-- The leaf digest `h(6)` evaluates to its literal bytes. -/
theorem hashLit6 : hashFromU8 6 = leafD6 := rfl

/-- The leaf digest `h(7)` evaluates to its literal bytes. -/
theorem hashLit7 : hashFromU8 7 = leafD7 := rfl

/-- One internal node of the eight-leaf tree evaluates to its literal digest. -/
theorem parentLit01 : types_parent_hash leafD0 leafD1 = nodeD01 := rfl

/-- One internal node of the eight-leaf tree evaluates to its literal digest. -/
theorem parentLit23 : types_parent_hash leafD2 leafD3 = nodeD23 := rfl

/-- One internal node of the eight-leaf tree evaluates to its literal digest. -/
theorem parentLit45 : types_parent_hash leafD4 leafD5 = nodeD45 := rfl

/-- One internal node of the eight-leaf tree evaluates to its literal digest. -/
theorem parentLit67 : types_parent_hash leafD6 leafD7 = nodeD67 := rfl

/-- One internal node of the eight-leaf tree evaluates to its literal digest. -/
theorem parentLit0123 : types_parent_hash nodeD01 nodeD23 = nodeD0123 := rfl

/-- One internal node of the eight-leaf tree evaluates to its literal digest. -/
theorem parentLit4567 : types_parent_hash nodeD45 nodeD67 = nodeD4567 := rfl

/-- One internal node of the eight-leaf tree evaluates to its literal digest. -/
theorem parentLitRoot : types_parent_hash nodeD0123 nodeD4567 = rootD8 := rfl

/-- C3 (confirmed): `Stump::add_single` increments `leafs` by exactly one,
and from a fresh stump `modify` with additions `h(0) .. h(7)` and no
deletions yields `leafs = 8` and exactly one root, the full Merkle root of
the eight leaves under `parent_hash` with the popped root always on the
left.  Each hash of the tree is pinned to its literal digest, and the root
digest's first two bytes are `0xb1 0x51`. -/
theorem claim_c3 :
    (∀ (s : Stump) (n : List Nat), (Stump.add_single s n).leafs = s.leafs + 1) ∧
    Stump.modify Stump.new (List.map hashFromU8 [0, 1, 2, 3, 4, 5, 6, 7]) [] =
      { leafs := 8,
        roots := [types_parent_hash
          (types_parent_hash (types_parent_hash (hashFromU8 0) (hashFromU8 1))
            (types_parent_hash (hashFromU8 2) (hashFromU8 3)))
          (types_parent_hash (types_parent_hash (hashFromU8 4) (hashFromU8 5))
            (types_parent_hash (hashFromU8 6) (hashFromU8 7)))] } ∧
    hashFromU8 0 = leafD0 ∧ hashFromU8 1 = leafD1 ∧
    hashFromU8 2 = leafD2 ∧ hashFromU8 3 = leafD3 ∧
    hashFromU8 4 = leafD4 ∧ hashFromU8 5 = leafD5 ∧
    hashFromU8 6 = leafD6 ∧ hashFromU8 7 = leafD7 ∧
    types_parent_hash leafD0 leafD1 = nodeD01 ∧
    types_parent_hash leafD2 leafD3 = nodeD23 ∧
    types_parent_hash leafD4 leafD5 = nodeD45 ∧
    types_parent_hash leafD6 leafD7 = nodeD67 ∧
    types_parent_hash nodeD01 nodeD23 = nodeD0123 ∧
    types_parent_hash nodeD45 nodeD67 = nodeD4567 ∧
    types_parent_hash nodeD0123 nodeD4567 = rootD8 ∧
    rootD8.take 2 = [0xb1, 0x51] :=
  ⟨fun _ _ => rfl, rfl, hashLit0, hashLit1, hashLit2, hashLit3, hashLit4, hashLit5,
    hashLit6, hashLit7, parentLit01, parentLit23, parentLit45, parentLit67,
    parentLit0123, parentLit4567, parentLitRoot, by decide⟩

/-- C4 (counterexample): `NodeHash::parent_hash` hashes unconditionally — it
never collapses Empty operands.  `parent_hash(Empty, Empty)` is the
SHA-512/256 of 64 zero bytes (a `Some`-tagged value, not Empty), and with
exactly one Empty side the result is a fresh digest, not the non-empty
side unchanged. -/
theorem claim_c4_counterexample :
    NodeHash.parent_hash NodeHash.empty NodeHash.empty = NodeHash.fromBytes zeros64Digest ∧
    NodeHash.fromBytes zeros64Digest ≠ NodeHash.empty ∧
    NodeHash.parent_hash (NodeHash.fromBytes (List.replicate 32 1)) NodeHash.empty =
      NodeHash.fromBytes onesZerosDigest ∧
    NodeHash.fromBytes onesZerosDigest ≠ NodeHash.fromBytes (List.replicate 32 1) :=
  ⟨rfl, by decide, rfl, by decide⟩

/-- C4 (amended): `parent_hash(L, R)` always returns a `Some`-tagged (never
Empty) hash — the SHA-512/256 over the dereferenced bytes of the operands,
where Empty and Placeholder dereference to 32 zero bytes — so its result
depends only on those bytes, never on the Empty/Placeholder tags. -/
theorem claim_c4 (l r l' r' : NodeHash) :
    (NodeHash.parent_hash l r).ty = NodeHashTy.Some ∧
    (NodeHash.parent_hash l r).is_empty = false ∧
    (NodeHash.deref l = NodeHash.deref l' → NodeHash.deref r = NodeHash.deref r' →
      NodeHash.parent_hash l r = NodeHash.parent_hash l' r') :=
  ⟨rfl, rfl, fun hl hr => by unfold NodeHash.parent_hash; rw [hl, hr]⟩

/-- C4 witness: the amended congruence at concrete inputs — Empty and
Placeholder dereference alike, so their parents agree. -/
theorem claim_c4_witness :
    NodeHash.parent_hash NodeHash.empty NodeHash.empty =
      NodeHash.parent_hash NodeHash.placeholder NodeHash.placeholder :=
  (claim_c4 NodeHash.empty NodeHash.empty NodeHash.placeholder NodeHash.placeholder).2.2
    rfl rfl

/-- C9 (counterexample): under the derived `PartialEq`, a Placeholder hash
*is* equal to itself, contradicting the claim that Placeholder is never
equal to any hash. -/
theorem claim_c9_counterexample :
    NodeHash.rustEq NodeHash.placeholder NodeHash.placeholder = true := by decide

/-- C9 (amended): the derived equality is componentwise — two Value hashes
are equal exactly when their bytes are equal, Empty equals Empty, and a
Placeholder equals exactly Placeholder (structural equality is reflexive,
so Placeholder is equal to itself). -/
theorem claim_c9 :
    (∀ x y : List Nat,
      (NodeHash.rustEq (NodeHash.fromBytes x) (NodeHash.fromBytes y) = true) ↔ x = y) ∧
    NodeHash.rustEq NodeHash.empty NodeHash.empty = true ∧
    (∀ a : NodeHash, (NodeHash.rustEq NodeHash.placeholder a = true) ↔
      a = NodeHash.placeholder) := by
  refine ⟨fun x y => ?_, by decide, fun a => ?_⟩
  · simp [NodeHash.rustEq, NodeHash.fromBytes, NodeHash.tyRustEq]
  · obtain ⟨ty, val⟩ := a
    cases ty <;>
      simp [NodeHash.rustEq, NodeHash.tyRustEq, NodeHash.placeholder] <;>
      exact eq_comm

/-- C2 (counterexample): the same modification sequence — add `h(0), h(1)`,
then delete the leaf at position 1 — leaves the stump's roots untouched
(its `modify` ignores deletions) while the pollard promotes `h(0)` into the
row-1 root slot, so the stump's roots no longer equal the pollard's
root-slot hashes. -/
theorem claim_c2_counterexample :
    exceptMatches
      (Stump.modify (Stump.modify Stump.new [hashFromU8 0, hashFromU8 1] []) [] [hashFromU8 1])
      (modifyAt pollardTwo [] [1]) = false := by
  rfl

/-- C5 (counterexample): deleting a root whose lower root slots are not all
occupied panics instead of writing an empty-hash placeholder: with two
leaves the only root is at row 1 (position 2), and the root branch of
`delete_single` unwraps the `None` in slot 0. -/
theorem claim_c5_counterexample :
    modifyAt pollardTwo [] [2] =
      Except.error (RtError.panicErr "delete_single: unwrap on None root slot") := by
  rfl

/-- C5 (amended): deleting a root with all lower slots occupied overwrites
its slot with an Empty-hash default node and leaves the leaf counter
unchanged (one-leaf pollard, position 0) — though a root deletion panics
when a lower slot is empty — and deleting a node whose parent is a root
promotes the sibling: after adding `h(0), h(1)` and deleting position 1,
the row-1 root slot holds `h(0)` and `leaves` is still 2. -/
theorem claim_c5 :
    rootHashAt (deleteAt pollardOne 0) 0 = Except.ok (some NodeHash.empty) ∧
    leavesOf (deleteAt pollardOne 0) = Except.ok 1 ∧
    rootHashAt (deleteAt pollardTwo 1) 1 =
      Except.ok (some (NodeHash.fromBytes (hashFromU8 0))) ∧
    leavesOf (deleteAt pollardTwo 1) = Except.ok 2 :=
  ⟨rfl, rfl, rfl, rfl⟩

/-- C6 (counterexample): on the fifteen-leaf pollard, `prove([3])` does not
return the two hashes `h(2), parent_hash(h(0), h(1))` — the returned list
has a third entry (and the return value is a bare list of hash lists, with
no targets field). -/
theorem claim_c6_counterexample :
    proveAt pollardFifteen [3] ≠
      Except.ok [[NodeHash.fromBytes (hashFromU8 2),
        NodeHash.parent_hash (NodeHash.fromBytes (hashFromU8 0))
          (NodeHash.fromBytes (hashFromU8 1))]] := by
  have h : proveAt pollardFifteen [3] =
      Except.ok [[NodeHash.fromBytes (hashFromU8 2),
        NodeHash.parent_hash (NodeHash.fromBytes (hashFromU8 0))
          (NodeHash.fromBytes (hashFromU8 1)),
        NodeHash.parent_hash
          (NodeHash.parent_hash (NodeHash.fromBytes (hashFromU8 4))
            (NodeHash.fromBytes (hashFromU8 5)))
          (NodeHash.parent_hash (NodeHash.fromBytes (hashFromU8 6))
            (NodeHash.fromBytes (hashFromU8 7)))]] := by rfl
  rw [h]
  simp

/-- C6 (amended): on the fifteen-leaf pollard (position 3 sits in the
eight-leaf tree), `prove([3])` returns — as a bare `Vec<Vec<NodeHash>>`
with no targets field — one hash list holding exactly the sibling `h(2)`,
the aunt `parent_hash(h(0), h(1))`, and the grand-aunt
`parent_hash(parent_hash(h(4), h(5)), parent_hash(h(6), h(7)))`. -/
theorem claim_c6 :
    proveAt pollardFifteen [3] =
      Except.ok [[NodeHash.fromBytes (hashFromU8 2),
        NodeHash.parent_hash (NodeHash.fromBytes (hashFromU8 0))
          (NodeHash.fromBytes (hashFromU8 1)),
        NodeHash.parent_hash
          (NodeHash.parent_hash (NodeHash.fromBytes (hashFromU8 4))
            (NodeHash.fromBytes (hashFromU8 5)))
          (NodeHash.parent_hash (NodeHash.fromBytes (hashFromU8 6))
            (NodeHash.fromBytes (hashFromU8 7)))]] := by
  rfl

/-- C7 (counterexample): `Pollard::modify` is not panic-free: deleting
position 0 on a fresh (empty) pollard panics inside `detect_offset` (the
`u8` subtraction `bigger_trees - 1` underflows in debug) before any
`Result` can be returned. -/
theorem claim_c7_counterexample :
    Pollard.modify Pollard.new [] [0] =
      Except.error (RtError.panicErr "attempt to subtract with overflow") := by
  rfl

/-- C8 (code_bug): `Pollard::undo` subtracts the addition count from
`leaves` twice — once inside each `undo_single_add` (outside row 0) and
once more at the end — so undoing the addition of `h(0), h(1)` to a fresh
pollard panics on `u64` underflow (debug; in release `leaves` wraps to
`2^64 - 1`) instead of restoring the pre-add state with `leaves = 0`. -/
theorem claim_c8 :
    undoAt pollardTwo ⟨⟨2, []⟩⟩ =
      Except.error (RtError.panicErr "attempt to subtract with overflow") := by
  rfl

/-- The slot-wise `all` of `Pollard::eq` over zipped root lists of equal
length holds exactly when the two hash views (`Option.map` of the hash over
each slot) are equal. -/
theorem zipAllHashEq (p q : Pollard) (as : List (Option Nat)) :
    ∀ bs : List (Option Nat), as.length = bs.length →
      (((as.zip bs).all fun s =>
        match s with
        | (some a, some b) => decide (Pollard.nodeHash p a = Pollard.nodeHash q b)
        | (none, none) => true
        | _ => false) = true ↔
      as.map (Option.map (Pollard.nodeHash p)) = bs.map (Option.map (Pollard.nodeHash q))) := by
  induction as with
  | nil =>
    intro bs h
    cases bs with
    | nil => simp
    | cons b bs => simp at h
  | cons a as ih =>
    intro bs h
    cases bs with
    | nil => simp at h
    | cons b bs =>
      simp only [List.zip_cons_cons, List.all_cons, Bool.and_eq_true, List.map_cons,
        List.cons.injEq]
      rw [ih bs (by simpa using h)]
      cases a <;> cases b <;> simp

/-- C10 (confirmed): `PartialEq` on `Pollard` compares exactly the 64 root
slots' hashes slot-wise (both `None`, or both occupied with equal hashes),
and never reads the `leaves` counters or any cached structure below the
root hashes: equality holds exactly when the slot-wise hash views agree,
and replacing either leaf counter changes nothing. -/
theorem claim_c10 :
    (∀ p q : Pollard, p.roots.length = 64 → q.roots.length = 64 →
      (Pollard.rustEq p q = true ↔
        p.roots.map (Option.map (Pollard.nodeHash p)) =
          q.roots.map (Option.map (Pollard.nodeHash q)))) ∧
    (∀ (p q : Pollard) (n m : Nat),
      Pollard.rustEq { p with leaves := n } { q with leaves := m } =
        Pollard.rustEq p q) := by
  refine ⟨fun p q hp hq => ?_, fun p q n m => rfl⟩
  exact zipAllHashEq p q p.roots q.roots (hp.trans hq.symm)

/-- C10 witness: two fresh pollards have equal slot views, hence compare
equal. -/
theorem claim_c10_witness : Pollard.rustEq Pollard.new Pollard.new = true :=
  (claim_c10.1 Pollard.new Pollard.new rfl rfl).mpr rfl

end Rustreexo
